import Mathlib

/-!
kinect2stl: depth frame to watertight STL mesh

A shallow embedding of `src/kinect2stl.cpp`.

Conventions of the embedding.

* `float` arithmetic is read as exact arithmetic over `ℚ`.  The mesh builder
  therefore produces `Triangle ℚ`.  The binary writer only copies the memory of
  a `float`, so there a coordinate is the 32-bit pattern of the float, a `Nat`.
  Where rounding decides a property, the single-precision reading
  `mainTrisFl roundF32` is used: the same loops with a rounding after every
  `float` operation.
* The depth buffer `const unsigned short *depth` is a total read function
  `Nat → Nat` from an element index to the sample stored there.
* The source fixes `width = 640`, `height = 480` in `main` and `width = 640` in
  `getDistanceAt`.  Here both are parameters (`width`, `height`), the same
  `width` being handed to `getDistanceAt`; the source is the instance
  `width = 640`, `height = 480`.
* `int` loop counters only take non-negative values and are `Nat`; the
  subtractions `maxval - minval` and `maxval - raw` happen in `int` after
  integer promotion and are `Int` subtractions.
-/

namespace Kinect2Stl

/-! ## Data model -/

/-- Source `using Vertex = std::array<float,3>`, over a scalar type `F`. -/
structure Vertex (F : Type) where
  x : F
  y : F
  z : F
  deriving DecidableEq

/-- Source `struct Triangle`: three vertices in winding order. -/
structure Triangle (F : Type) where
  v0 : Vertex F
  v1 : Vertex F
  v2 : Vertex F
  deriving DecidableEq

/-! ## Vertex algebra -/

/-- Source `Vertex operator-(const Vertex& a, const Vertex& b)`. -/
def Vertex.sub (a b : Vertex ℚ) : Vertex ℚ :=
  ⟨a.x - b.x, a.y - b.y, a.z - b.z⟩

/-- Source `Vertex cross(const Vertex& a, const Vertex& b)`. -/
def cross (a b : Vertex ℚ) : Vertex ℚ :=
  ⟨a.y * b.z - a.z * b.y, a.z * b.x - a.x * b.z, a.x * b.y - a.y * b.x⟩

/-- The vector that `compute_normal` hands to `normalized`:
`cross(tri.v1 - tri.v0, tri.v2 - tri.v0)`. -/
def normalDir (tri : Triangle ℚ) : Vertex ℚ :=
  let d1 := tri.v1.sub tri.v0
  let d2 := tri.v2.sub tri.v0
  cross d1 d2

/-- Scalar product of two vectors (used by the properties, not by the source). -/
def dot (a b : Vertex ℚ) : ℚ :=
  a.x * b.x + a.y * b.y + a.z * b.z

/-! ## Depth remapper -/

/-- Source `float getDistanceAt(depth, x, y, minval, maxval)`; the row stride `width`
is the constant 640 in the source.  Exact arithmetic; `getDistanceAtFl` is the
same function with a rounding after every `float` operation. -/
def getDistanceAt (width : Nat) (depth : Nat → Nat) (x y : Nat)
    (minval maxval : Nat) : ℚ :=
  let num : ℚ := 250
  let scale : ℚ := num / (((maxval : Int) - (minval : Int) : Int) : ℚ)
  let raw : Nat := depth (y * width + x)
  (((maxval : Int) - (raw : Int) : Int) : ℚ) * scale

/-- The "determine Z scale" scan of `main`: returns `(minval, maxval)`. -/
def depthRange (width height : Nat) (depth : Nat → Nat) : Nat × Nat :=
  (List.range height).foldl
    (fun acc y =>
      (List.range width).foldl
        (fun acc x =>
          (min acc.1 (depth (y * width + x)), max acc.2 (depth (y * width + x))))
        acc)
    (65535, 0)

/-! ## Mesh builder -/

/-- Source `const float back = -3.f`. -/
def back : ℚ := -3

/-- Loop "the front" of `main`. -/
def frontPanel (width height : Nat) (depth : Nat → Nat) (minval maxval : Nat) :
    List (Triangle ℚ) :=
  (List.range (height - 1)).flatMap fun y =>
    let y0 : ℚ := (y : ℚ)
    let y1 : ℚ := y0 + 1
    (List.range (width - 1)).flatMap fun x =>
      let x0 : ℚ := (x : ℚ)
      let x1 : ℚ := x0 + 1
      let v00 := getDistanceAt width depth x y minval maxval
      let v10 := getDistanceAt width depth (x + 1) y minval maxval
      let v01 := getDistanceAt width depth x (y + 1) minval maxval
      let v11 := getDistanceAt width depth (x + 1) (y + 1) minval maxval
      [ { v0 := ⟨x0, y0, v00⟩, v1 := ⟨x1, y0, v10⟩, v2 := ⟨x1, y1, v11⟩ },
        { v0 := ⟨x0, y0, v00⟩, v1 := ⟨x1, y1, v11⟩, v2 := ⟨x0, y1, v01⟩ } ]

/-- Loop "the bottom" of `main`. -/
def bottomPanel (width : Nat) (depth : Nat → Nat) (minval maxval : Nat) :
    List (Triangle ℚ) :=
  (List.range (width - 1)).flatMap fun x =>
    let yi : Nat := 0
    let yf : ℚ := (yi : ℚ)
    let x0 : ℚ := (x : ℚ)
    let x1 : ℚ := x0 + 1
    let v0 := getDistanceAt width depth x yi minval maxval
    let v1 := getDistanceAt width depth (x + 1) yi minval maxval
    [ { v0 := ⟨x0, yf, back⟩, v1 := ⟨x1, yf, back⟩, v2 := ⟨x1, yf, v1⟩ },
      { v0 := ⟨x0, yf, back⟩, v1 := ⟨x1, yf, v1⟩, v2 := ⟨x0, yf, v0⟩ } ]

/-- Loop "the right side" of `main`. -/
def rightPanel (width height : Nat) (depth : Nat → Nat) (minval maxval : Nat) :
    List (Triangle ℚ) :=
  (List.range (height - 1)).flatMap fun y =>
    let xi : Nat := width - 1
    let xf : ℚ := (xi : ℚ)
    let y0 : ℚ := (y : ℚ)
    let y1 : ℚ := y0 + 1
    let v0 := getDistanceAt width depth xi y minval maxval
    let v1 := getDistanceAt width depth xi (y + 1) minval maxval
    [ { v0 := ⟨xf, y0, back⟩, v1 := ⟨xf, y1, back⟩, v2 := ⟨xf, y1, v1⟩ },
      { v0 := ⟨xf, y0, back⟩, v1 := ⟨xf, y1, v1⟩, v2 := ⟨xf, y0, v0⟩ } ]

/-- Loop "the top" of `main`: `for (int x = width-1; x > 0; --x)`. -/
def topPanel (width height : Nat) (depth : Nat → Nat) (minval maxval : Nat) :
    List (Triangle ℚ) :=
  (List.iota (width - 1)).flatMap fun x =>
    let yi : Nat := height - 1
    let yf : ℚ := (yi : ℚ)
    let x0 : ℚ := (x : ℚ)
    let x1 : ℚ := x0 - 1
    let v0 := getDistanceAt width depth x yi minval maxval
    let v1 := getDistanceAt width depth (x - 1) yi minval maxval
    [ { v0 := ⟨x0, yf, back⟩, v1 := ⟨x1, yf, back⟩, v2 := ⟨x1, yf, v1⟩ },
      { v0 := ⟨x0, yf, back⟩, v1 := ⟨x1, yf, v1⟩, v2 := ⟨x0, yf, v0⟩ } ]

/-- Loop "the left side" of `main`: `for (int y = height - 1; y > 0; --y)`. -/
def leftPanel (width height : Nat) (depth : Nat → Nat) (minval maxval : Nat) :
    List (Triangle ℚ) :=
  (List.iota (height - 1)).flatMap fun y =>
    let xi : Nat := 0
    let xf : ℚ := (xi : ℚ)
    let y0 : ℚ := (y : ℚ)
    let y1 : ℚ := y0 - 1
    let v0 := getDistanceAt width depth xi y minval maxval
    let v1 := getDistanceAt width depth xi (y - 1) minval maxval
    [ { v0 := ⟨xf, y0, back⟩, v1 := ⟨xf, y1, back⟩, v2 := ⟨xf, y1, v1⟩ },
      { v0 := ⟨xf, y0, back⟩, v1 := ⟨xf, y1, v1⟩, v2 := ⟨xf, y0, v0⟩ } ]

/-- Loop "the back" of `main`. -/
def backPanel (width height : Nat) : List (Triangle ℚ) :=
  (List.range (height - 1)).flatMap fun y =>
    let y0 : ℚ := (y : ℚ)
    let y1 : ℚ := y0 + 1
    (List.range (width - 1)).flatMap fun x =>
      let x0 : ℚ := (x : ℚ)
      let x1 : ℚ := x0 + 1
      [ { v0 := ⟨x0, y0, back⟩, v1 := ⟨x1, y1, back⟩, v2 := ⟨x1, y0, back⟩ },
        { v0 := ⟨x0, y0, back⟩, v1 := ⟨x0, y1, back⟩, v2 := ⟨x1, y1, back⟩ } ]

/-- The six loops of `main` for a given depth range, in program order: every
`tris.push_back` appends to the list. -/
def meshFor (width height : Nat) (depth : Nat → Nat) (minval maxval : Nat) :
    List (Triangle ℚ) :=
  frontPanel width height depth minval maxval
    ++ bottomPanel width depth minval maxval
    ++ rightPanel width height depth minval maxval
    ++ topPanel width height depth minval maxval
    ++ leftPanel width height depth minval maxval
    ++ backPanel width height

/-- The vector `tris` of `main` when the writer starts: the range scan followed
by the six mesh-builder loops. -/
def mainTris (width height : Nat) (depth : Nat → Nat) : List (Triangle ℚ) :=
  let r := depthRange width height depth
  meshFor width height depth r.1 r.2

/-! ## Auxiliary definitions for the depth range scan -/

/-- One iteration of the scan body on the sample at index `i`. -/
def scanStep (depth : Nat → Nat) (acc : Nat × Nat) (i : Nat) : Nat × Nat :=
  (min acc.1 (depth i), max acc.2 (depth i))

/-- The element indices the scan reads, in program order. -/
def scanIndices (width height : Nat) : List Nat :=
  (List.range height).flatMap fun y => (List.range width).map fun x => y * width + x

/-! ## Binary STL writer -/

/-- A `float` as the writer sees it: its 32-bit pattern. -/
abbrev Float32 := Fin 4294967296

/-- The four bytes of a 32-bit object in memory order (little-endian host),
as copied by `ofs.write((char*)&w, 4)`. -/
def bytes32 (w : Nat) : List Nat :=
  [w % 256, w / 256 % 256, w / 65536 % 256, w / 16777216 % 256]

/-- The two bytes of a 16-bit object in memory order (little-endian host). -/
def bytes16 (w : Nat) : List Nat :=
  [w % 256, w / 256 % 256]

/-- Source `ofs.write((char*)&v[0], 3*sizeof(float))`: the 12 bytes of a vertex. -/
def writeVertex (v : Vertex Float32) : List Nat :=
  bytes32 v.x.val ++ bytes32 v.y.val ++ bytes32 v.z.val

/-- Body of the writer loop for one triangle; `compute_normal` is floating-point
code and enters as the parameter `normal`. -/
def writeTriangle (normal : Triangle Float32 → Vertex Float32) (t : Triangle Float32) :
    List Nat :=
  let attr_count : Nat := 0
  writeVertex (normal t) ++ writeVertex t.v0 ++ writeVertex t.v1 ++ writeVertex t.v2
    ++ bytes16 attr_count

/-- The binary branch of the writer in `main`: the bytes written to `kinect.stl`.
`uint32_t numTri = tris.size()` truncates modulo `2^32`; the header is 80 times
the character `x` (code 120). -/
def writeBinary (normal : Triangle Float32 → Vertex Float32) (tris : List (Triangle Float32)) :
    List Nat :=
  let x : List Nat := List.replicate 80 120
  let numTri : Nat := tris.length % 4294967296
  x ++ bytes32 numTri ++ tris.flatMap (writeTriangle normal)

/-! ## Binary STL reader

The source has no reader.  This one follows the binary layout stated in the
specification: 80 header bytes, a little-endian 32-bit count, then 50-byte
records.  It is the reference against which the writer is compared. -/

/-- One 50-byte record of a binary STL file. -/
structure StlRecord where
  normal : Vertex Float32
  v0 : Vertex Float32
  v1 : Vertex Float32
  v2 : Vertex Float32
  attr : Nat
  deriving DecidableEq

/-- Little-endian value of four bytes. -/
def le32 (b0 b1 b2 b3 : Nat) : Nat :=
  b0 + 256 * b1 + 65536 * b2 + 16777216 * b3

/-- Reads a little-endian 32-bit word. -/
def read32 : List Nat → Option (Nat × List Nat)
  | b0 :: b1 :: b2 :: b3 :: rest => some (le32 b0 b1 b2 b3 % 4294967296, rest)
  | _ => none

/-- Reads a little-endian 16-bit word. -/
def read16 : List Nat → Option (Nat × List Nat)
  | b0 :: b1 :: rest => some ((b0 + 256 * b1) % 65536, rest)
  | _ => none

/-- Reads one 32-bit float pattern. -/
def readFloat (bs : List Nat) : Option (Float32 × List Nat) :=
  match read32 bs with
  | some (w, rest) => some (Fin.ofNat w, rest)
  | none => none

/-- Reads three floats: 12 bytes. -/
def readVertex (bs : List Nat) : Option (Vertex Float32 × List Nat) := do
  let (x, bs) ← readFloat bs
  let (y, bs) ← readFloat bs
  let (z, bs) ← readFloat bs
  pure (⟨x, y, z⟩, bs)

/-- Reads one record: 12 bytes normal, 3 × 12 bytes vertices, 2 bytes attribute. -/
def readRecord (bs : List Nat) : Option (StlRecord × List Nat) := do
  let (n, bs) ← readVertex bs
  let (v0, bs) ← readVertex bs
  let (v1, bs) ← readVertex bs
  let (v2, bs) ← readVertex bs
  let (a, bs) ← read16 bs
  pure (⟨n, v0, v1, v2, a⟩, bs)

/-- Reads `n` consecutive records. -/
def readRecords : Nat → List Nat → Option (List StlRecord)
  | 0, _ => some []
  | n + 1, bs => do
    let (r, bs) ← readRecord bs
    let rs ← readRecords n bs
    pure (r :: rs)

/-- Binary STL reader: skip the 80 header bytes, read the little-endian count at
bytes 80–83, then that many records.  Returns the count and the records. -/
def readBinary (bs : List Nat) : Option (Nat × List StlRecord) := do
  let (count, body) ← read32 (bs.drop 80)
  let rs ← readRecords count body
  pure (count, rs)

/-- The record a triangle is expected to be read back as. -/
def recordOf (normal : Triangle Float32 → Vertex Float32) (t : Triangle Float32) : StlRecord :=
  ⟨normal t, t.v0, t.v1, t.v2, 0⟩

/-! ## Combinatorial form of the mesh -/

/-- A mesh vertex by its grid position and the layer it lies on: the front
surface (`front = true`) or the rear plane. -/
structure Node where
  x : Nat
  y : Nat
  front : Bool
  deriving DecidableEq

/-- A triangle by its three corner nodes, in winding order. -/
structure NodeTri where
  a : Node
  b : Node
  c : Node
  deriving DecidableEq

/-- Position of a node for the height field `Z`. -/
def place (Z : Nat → Nat → ℚ) (n : Node) : Vertex ℚ :=
  ⟨(n.x : ℚ), (n.y : ℚ), if n.front then Z n.x n.y else back⟩

/-- The triangle spanned by the positions of three nodes. -/
def placeTri (Z : Nat → Nat → ℚ) (t : NodeTri) : Triangle ℚ :=
  ⟨place Z t.a, place Z t.b, place Z t.c⟩

/-- The skirt quad from node column `p` to node column `q` (grid positions):
the two triangles `(p back, q back, q front)`, `(p back, q front, p front)`. -/
def skirtQuad (px py qx qy : Nat) : List NodeTri :=
  [ ⟨⟨px, py, false⟩, ⟨qx, qy, false⟩, ⟨qx, qy, true⟩⟩,
    ⟨⟨px, py, false⟩, ⟨qx, qy, true⟩, ⟨px, py, true⟩⟩ ]

/-- Combinatorial form of the loop "the front". -/
def frontNodes (W H : Nat) : List NodeTri :=
  (List.range (H - 1)).flatMap fun y => (List.range (W - 1)).flatMap fun x =>
    [ ⟨⟨x, y, true⟩, ⟨x + 1, y, true⟩, ⟨x + 1, y + 1, true⟩⟩,
      ⟨⟨x, y, true⟩, ⟨x + 1, y + 1, true⟩, ⟨x, y + 1, true⟩⟩ ]

/-- Combinatorial form of the loop "the bottom". -/
def bottomNodes (W : Nat) : List NodeTri :=
  (List.range (W - 1)).flatMap fun x => skirtQuad x 0 (x + 1) 0

/-- Combinatorial form of the loop "the right side". -/
def rightNodes (W H : Nat) : List NodeTri :=
  (List.range (H - 1)).flatMap fun y => skirtQuad (W - 1) y (W - 1) (y + 1)

/-- Combinatorial form of the loop "the top". -/
def topNodes (W H : Nat) : List NodeTri :=
  (List.iota (W - 1)).flatMap fun x => skirtQuad x (H - 1) (x - 1) (H - 1)

/-- Combinatorial form of the loop "the left side". -/
def leftNodes (H : Nat) : List NodeTri :=
  (List.iota (H - 1)).flatMap fun y => skirtQuad 0 y 0 (y - 1)

/-- Combinatorial form of the loop "the back". -/
def backNodes (W H : Nat) : List NodeTri :=
  (List.range (H - 1)).flatMap fun y => (List.range (W - 1)).flatMap fun x =>
    [ ⟨⟨x, y, false⟩, ⟨x + 1, y + 1, false⟩, ⟨x + 1, y, false⟩⟩,
      ⟨⟨x, y, false⟩, ⟨x, y + 1, false⟩, ⟨x + 1, y + 1, false⟩⟩ ]

/-- Combinatorial form of the whole mesh, panels in program order. -/
def meshNodes (W H : Nat) : List NodeTri :=
  frontNodes W H ++ bottomNodes W ++ rightNodes W H ++ topNodes W H ++ leftNodes H
    ++ backNodes W H

/-- The height field of a frame: remapped depth at pixel `(x, y)`. -/
def heightField (width : Nat) (depth : Nat → Nat) (minval maxval : Nat) :
    Nat → Nat → ℚ :=
  fun x y => getDistanceAt width depth x y minval maxval

/-! ## Bounding box -/

/-- Centroid of the 8 corner vertices of the bounding box
`[0, W-1] × [0, H-1] × [-3, 250]`. -/
def bboxCentroid (W H : Nat) : Vertex ℚ :=
  let x1 : ℚ := ((W - 1 : Nat) : ℚ)
  let y1 : ℚ := ((H - 1 : Nat) : ℚ)
  let corners : List (Vertex ℚ) :=
    [⟨0, 0, -3⟩, ⟨x1, 0, -3⟩, ⟨0, y1, -3⟩, ⟨x1, y1, -3⟩,
     ⟨0, 0, 250⟩, ⟨x1, 0, 250⟩, ⟨0, y1, 250⟩, ⟨x1, y1, 250⟩]
  ⟨(corners.map Vertex.x).sum / 8, (corners.map Vertex.y).sum / 8,
    (corners.map Vertex.z).sum / 8⟩


/-! ## Signed volume -/

/-- Scalar triple product `v0 · (v1 × v2)` of a triangle. -/
def tripleProduct (t : Triangle ℚ) : ℚ :=
  dot t.v0 (cross t.v1 t.v2)

/-- Signed volume of a triangle list: the sum of `v0 · (v1 × v2) / 6`. -/
def signedVolume (tris : List (Triangle ℚ)) : ℚ :=
  (tris.map fun t => tripleProduct t / 6).sum

/-- Sum of the heights of the six corners of the two front triangles of cell
`(x, y)`, heights taken from `Z = 0`. -/
def cellPrism (Z : Nat → Nat → ℚ) (x y : Nat) : ℚ :=
  2 * Z x y + Z (x + 1) y + 2 * Z (x + 1) (y + 1) + Z x (y + 1)

/-- Flux term of the vertical wall over the grid edge `(x, y) — (x, y+1)`. -/
def wallX (Z : Nat → Nat → ℚ) (x y : Nat) : ℚ :=
  -((x : ℚ) * (Z x y + Z x (y + 1)))

/-- Flux term of the vertical wall over the grid edge `(x, y) — (x+1, y)`. -/
def wallY (Z : Nat → Nat → ℚ) (x y : Nat) : ℚ :=
  -((y : ℚ) * (Z x y + Z (x + 1) y))

/-! ## Edges -/

/-- A directed edge between two corners. -/
structure Edge (α : Type) where
  src : α
  dst : α
  deriving DecidableEq

/-- The same edge traversed the other way. -/
def Edge.rev {α : Type} (e : Edge α) : Edge α :=
  ⟨e.dst, e.src⟩

/-- The three sides of a node triangle as directed edges, in winding order. -/
def NodeTri.edges (t : NodeTri) : List (Edge Node) :=
  [⟨t.a, t.b⟩, ⟨t.b, t.c⟩, ⟨t.c, t.a⟩]

/-- The cells `(i, j)` with `i < n`, `j < m`, row by row. -/
def grid (n m : Nat) : List (Nat × Nat) :=
  (List.range m).flatMap fun j => (List.range n).map fun i => (i, j)

/-- The directed edge of cell `c` from the node at offset `(a1, b1)` on layer `f1`
to the node at offset `(a2, b2)` on layer `f2`. -/
def edgeAt (a1 b1 : Nat) (f1 : Bool) (a2 b2 : Nat) (f2 : Bool) (c : Nat × Nat) :
    Edge Node :=
  ⟨⟨c.1 + a1, c.2 + b1, f1⟩, ⟨c.1 + a2, c.2 + b2, f2⟩⟩

/-- Number of occurrences of `e` in the family of edges `edgeAt a1 b1 f1 a2 b2 f2 c`,
`c` ranging over `grid n m`: 1 if `e` has that shape for a cell of the grid, else 0. -/
def famCount (n m a1 b1 : Nat) (f1 : Bool) (a2 b2 : Nat) (f2 : Bool) (e : Edge Node) : Nat :=
  if a1 ≤ e.src.x ∧ e.src.x < n + a1 ∧ b1 ≤ e.src.y ∧ e.src.y < m + b1 ∧ e.src.front = f1
      ∧ e.dst.x + a1 = e.src.x + a2 ∧ e.dst.y + b1 = e.src.y + b2 ∧ e.dst.front = f2
  then 1 else 0

/-- Closed-form edge count of a strip of skirt quads from offset `(px, py)` to
offset `(qx, qy)` over `grid n m`: the six sides of the two triangles of a quad. -/
def skirtCount (n m px py qx qy : Nat) (e : Edge Node) : Nat :=
  famCount n m px py false qx qy false e
  + famCount n m qx qy false qx qy true e
  + famCount n m qx qy true px py false e
  + famCount n m px py false qx qy true e
  + famCount n m qx qy true px py true e
  + famCount n m px py true px py false e

/-- Closed-form edge count of the front surface. -/
def frontCount (W H : Nat) (e : Edge Node) : Nat :=
  famCount (W-1) (H-1) 0 0 true 1 0 true e
  + famCount (W-1) (H-1) 1 0 true 1 1 true e
  + famCount (W-1) (H-1) 1 1 true 0 0 true e
  + famCount (W-1) (H-1) 0 0 true 1 1 true e
  + famCount (W-1) (H-1) 1 1 true 0 1 true e
  + famCount (W-1) (H-1) 0 1 true 0 0 true e

/-- Closed-form edge count of the rear cap. -/
def backCount (W H : Nat) (e : Edge Node) : Nat :=
  famCount (W-1) (H-1) 0 0 false 1 1 false e
  + famCount (W-1) (H-1) 1 1 false 1 0 false e
  + famCount (W-1) (H-1) 1 0 false 0 0 false e
  + famCount (W-1) (H-1) 0 0 false 0 1 false e
  + famCount (W-1) (H-1) 0 1 false 1 1 false e
  + famCount (W-1) (H-1) 1 1 false 0 0 false e

/-- Closed-form edge count of the whole mesh: front, bottom, right, top, left, back. -/
def meshCount (W H : Nat) (e : Edge Node) : Nat :=
  frontCount W H e
  + skirtCount (W-1) 1 0 0 1 0 e
  + skirtCount 1 (H-1) (W-1) 0 (W-1) 1 e
  + skirtCount (W-1) 1 1 (H-1) 0 (H-1) e
  + skirtCount 1 (H-1) 0 1 0 0 e
  + backCount W H e


/-- The three sides of a triangle as directed edges, in winding order
`v0 → v1`, `v1 → v2`, `v2 → v0`. -/
def Triangle.edges (t : Triangle ℚ) : List (Edge (Vertex ℚ)) :=
  [⟨t.v0, t.v1⟩, ⟨t.v1, t.v2⟩, ⟨t.v2, t.v0⟩]

/-- The undirected edge `{a, b}` is a side of `t`: `a` and `b` are consecutive
corners of `t`, in either order. -/
def hasEdge (t : Triangle ℚ) (a b : Vertex ℚ) : Bool :=
  decide ((⟨a, b⟩ : Edge (Vertex ℚ)) ∈ t.edges ∨ (⟨b, a⟩ : Edge (Vertex ℚ)) ∈ t.edges)

/-! ## Normalisation -/

/-- The value `len` that `normalized` computes, `a[0]*a[0] + a[1]*a[1] + a[2]*a[2]`;
`normalized` then multiplies every component by `1. / sqrt(len)`. -/
def normalizedLen (a : Vertex ℚ) : ℚ :=
  a.x * a.x + a.y * a.y + a.z * a.z

/-! ## Skirt quads -/

/-- First triangle of a skirt quad from ground point `p0` to ground point `p1`:
`(p0 at back, p1 at back, p1 at z1)`, `z1` the remapped depth at `p1`. -/
def skirtT0 (p0x p0y p1x p1y z1 : ℚ) : Triangle ℚ :=
  ⟨⟨p0x, p0y, back⟩, ⟨p1x, p1y, back⟩, ⟨p1x, p1y, z1⟩⟩

/-- Second triangle of a skirt quad from ground point `p0` to ground point `p1`:
`(p0 at back, p1 at z1, p0 at z0)`, `z0`, `z1` the remapped depths at `p0`, `p1`. -/
def skirtT1 (p0x p0y p1x p1y z0 z1 : ℚ) : Triangle ℚ :=
  ⟨⟨p0x, p0y, back⟩, ⟨p1x, p1y, z1⟩, ⟨p0x, p0y, z0⟩⟩

/-- Image of an edge under a map of its endpoints. -/
def Edge.map {α β : Type} (f : α → β) (e : Edge α) : Edge β :=
  ⟨f e.src, f e.dst⟩

/-! ## Control flow of `main` -/

/-- How a run of `main` ends: `exit(code)` after a line on `std::cerr`, or the
mesh is built and handed to the writer and `main` returns 0. -/
inductive Outcome where
  | exit (code : Nat) (diagnostic : String)
  | wrote (tris : List (Triangle ℚ))

/-- The control flow of `main` as a function of the status `videoRet` returned by
`freenect_sync_get_video`, the status `depthRet` returned by
`freenect_sync_get_depth` and the depth frame.  The depth fetch is reached only
when the first test passes. -/
def mainOutcome (videoRet depthRet : Int) (width height : Nat) (depth : Nat → Nat) :
    Outcome :=
  if videoRet < 0 then
    Outcome.exit 1 "No kinect found"
  else if depthRet < 0 then
    Outcome.exit 1 "Could not get depth"
  else
    Outcome.wrote (mainTris width height depth)

/-- The depth remapper with its division made partial: `none` when the divisor
`maxval - minval` is zero.  There the source computes `250.f / 0.f`, which has no
exact value (the float quotient is infinite and its product with `maxval - raw = 0`
is not a number). -/
def getDistanceAtChecked (width : Nat) (depth : Nat → Nat) (x y : Nat)
    (minval maxval : Nat) : Option ℚ :=
  if (maxval : Int) - (minval : Int) = 0 then none
  else some (getDistanceAt width depth x y minval maxval)

/-! ## Bounds-checked reading of the depth buffer

The same scan and mesh-builder loops over a buffer of known extent, every read
going through a total lookup that fails outside the frame. -/

/-- Total lookup of `depth[y*width + x]` in a `width × height` buffer held as a
list: `none` when a coordinate lies outside the frame or the index lies outside
the buffer. -/
def readDepth? (width height : Nat) (frame : List Nat) (x y : Nat) : Option Nat :=
  if x < width ∧ y < height then frame[y * width + x]? else none

/-- Bounds-checked `getDistanceAt`. -/
def getDistanceAt? (width height : Nat) (frame : List Nat) (x y : Nat)
    (minval maxval : Nat) : Option ℚ := do
  let num : ℚ := 250
  let scale : ℚ := num / (((maxval : Int) - (minval : Int) : Int) : ℚ)
  let raw ← readDepth? width height frame x y
  pure ((((maxval : Int) - (raw : Int) : Int) : ℚ) * scale)

/-- Bounds-checked range scan of `main`. -/
def depthRange? (width height : Nat) (frame : List Nat) : Option (Nat × Nat) :=
  (List.range height).foldlM
    (fun acc y =>
      (List.range width).foldlM
        (fun acc x => do
          let d ← readDepth? width height frame x y
          pure (min acc.1 d, max acc.2 d))
        acc)
    (65535, 0)

/-- A loop whose body may fail: the triangles pushed by the iterations, in
order, or `none` as soon as one iteration fails. -/
def forChecked {α β : Type} : List α → (α → Option (List β)) → Option (List β)
  | [], _ => some []
  | a :: l, body => do
    let ts ← body a
    let rest ← forChecked l body
    pure (ts ++ rest)

/-- Bounds-checked loop "the front". -/
def frontPanel? (width height : Nat) (frame : List Nat) (minval maxval : Nat) :
    Option (List (Triangle ℚ)) :=
  forChecked (List.range (height - 1)) fun y =>
    let y0 : ℚ := (y : ℚ)
    let y1 : ℚ := y0 + 1
    forChecked (List.range (width - 1)) fun x => do
      let x0 : ℚ := (x : ℚ)
      let x1 : ℚ := x0 + 1
      let v00 ← getDistanceAt? width height frame x y minval maxval
      let v10 ← getDistanceAt? width height frame (x + 1) y minval maxval
      let v01 ← getDistanceAt? width height frame x (y + 1) minval maxval
      let v11 ← getDistanceAt? width height frame (x + 1) (y + 1) minval maxval
      pure [ { v0 := ⟨x0, y0, v00⟩, v1 := ⟨x1, y0, v10⟩, v2 := ⟨x1, y1, v11⟩ },
             { v0 := ⟨x0, y0, v00⟩, v1 := ⟨x1, y1, v11⟩, v2 := ⟨x0, y1, v01⟩ } ]

/-- Bounds-checked loop "the bottom". -/
def bottomPanel? (width height : Nat) (frame : List Nat) (minval maxval : Nat) :
    Option (List (Triangle ℚ)) :=
  forChecked (List.range (width - 1)) fun x => do
    let yi : Nat := 0
    let yf : ℚ := (yi : ℚ)
    let x0 : ℚ := (x : ℚ)
    let x1 : ℚ := x0 + 1
    let v0 ← getDistanceAt? width height frame x yi minval maxval
    let v1 ← getDistanceAt? width height frame (x + 1) yi minval maxval
    pure [ { v0 := ⟨x0, yf, back⟩, v1 := ⟨x1, yf, back⟩, v2 := ⟨x1, yf, v1⟩ },
           { v0 := ⟨x0, yf, back⟩, v1 := ⟨x1, yf, v1⟩, v2 := ⟨x0, yf, v0⟩ } ]

/-- Bounds-checked loop "the right side". -/
def rightPanel? (width height : Nat) (frame : List Nat) (minval maxval : Nat) :
    Option (List (Triangle ℚ)) :=
  forChecked (List.range (height - 1)) fun y => do
    let xi : Nat := width - 1
    let xf : ℚ := (xi : ℚ)
    let y0 : ℚ := (y : ℚ)
    let y1 : ℚ := y0 + 1
    let v0 ← getDistanceAt? width height frame xi y minval maxval
    let v1 ← getDistanceAt? width height frame xi (y + 1) minval maxval
    pure [ { v0 := ⟨xf, y0, back⟩, v1 := ⟨xf, y1, back⟩, v2 := ⟨xf, y1, v1⟩ },
           { v0 := ⟨xf, y0, back⟩, v1 := ⟨xf, y1, v1⟩, v2 := ⟨xf, y0, v0⟩ } ]

/-- Bounds-checked loop "the top". -/
def topPanel? (width height : Nat) (frame : List Nat) (minval maxval : Nat) :
    Option (List (Triangle ℚ)) :=
  forChecked (List.iota (width - 1)) fun x => do
    let yi : Nat := height - 1
    let yf : ℚ := (yi : ℚ)
    let x0 : ℚ := (x : ℚ)
    let x1 : ℚ := x0 - 1
    let v0 ← getDistanceAt? width height frame x yi minval maxval
    let v1 ← getDistanceAt? width height frame (x - 1) yi minval maxval
    pure [ { v0 := ⟨x0, yf, back⟩, v1 := ⟨x1, yf, back⟩, v2 := ⟨x1, yf, v1⟩ },
           { v0 := ⟨x0, yf, back⟩, v1 := ⟨x1, yf, v1⟩, v2 := ⟨x0, yf, v0⟩ } ]

/-- Bounds-checked loop "the left side". -/
def leftPanel? (width height : Nat) (frame : List Nat) (minval maxval : Nat) :
    Option (List (Triangle ℚ)) :=
  forChecked (List.iota (height - 1)) fun y => do
    let xi : Nat := 0
    let xf : ℚ := (xi : ℚ)
    let y0 : ℚ := (y : ℚ)
    let y1 : ℚ := y0 - 1
    let v0 ← getDistanceAt? width height frame xi y minval maxval
    let v1 ← getDistanceAt? width height frame xi (y - 1) minval maxval
    pure [ { v0 := ⟨xf, y0, back⟩, v1 := ⟨xf, y1, back⟩, v2 := ⟨xf, y1, v1⟩ },
           { v0 := ⟨xf, y0, back⟩, v1 := ⟨xf, y1, v1⟩, v2 := ⟨xf, y0, v0⟩ } ]

/-- Bounds-checked range scan followed by the six bounds-checked loops; the loop
"the back" reads nothing. -/
def mainTris? (width height : Nat) (frame : List Nat) : Option (List (Triangle ℚ)) := do
  let r ← depthRange? width height frame
  let front ← frontPanel? width height frame r.1 r.2
  let bottom ← bottomPanel? width height frame r.1 r.2
  let right ← rightPanel? width height frame r.1 r.2
  let top ← topPanel? width height frame r.1 r.2
  let left ← leftPanel? width height frame r.1 r.2
  pure (front ++ bottom ++ right ++ top ++ left ++ backPanel width height)

/-! ## Single-precision reading of the mesh builder

The mesh builder with every `float` operation followed by a rounding `fl`.  With
`fl = id` this is the exact reading used above; with `fl = roundF32` it is the
IEEE-754 binary32 reading of the source. -/

/-- Nearest integer, ties to the even one. -/
def roundHalfEven (q : ℚ) : Int :=
  let f := ⌊q⌋
  if q - f < 1 / 2 then f
  else if 1 / 2 < q - f then f + 1
  else if f % 2 = 0 then f else f + 1

/-- Rounding of an exact value to IEEE-754 binary32, round to nearest, ties to
even: a 24-bit significand in the binade of `q`, the spacing of the subnormals
below `2^-126`.  Overflow to infinity (`|q| ≥ 2^128`) is not represented; no
value of the mesh builder comes near it. -/
def roundF32 (q : ℚ) : ℚ :=
  if q = 0 then 0
  else
    let e : Int := max (Int.log 2 |q|) (-126)
    let ulp : ℚ := (2 : ℚ) ^ (e - 23)
    (roundHalfEven (q / ulp) : ℚ) * ulp

/-- Source `getDistanceAt` with rounding `fl` after the two conversions
`static_cast<float>`, the division and the product; `250.f` is exact.  The
quotient by a zero span is not represented (see `getDistanceAtChecked`). -/
def getDistanceAtFl (fl : ℚ → ℚ) (width : Nat) (depth : Nat → Nat) (x y : Nat)
    (minval maxval : Nat) : ℚ :=
  let num : ℚ := 250
  let scale : ℚ := fl (num / fl (((maxval : Int) - (minval : Int) : Int) : ℚ))
  let raw : Nat := depth (y * width + x)
  fl (fl (((maxval : Int) - (raw : Int) : Int) : ℚ) * scale)

/-- Loop "the front" of `main` with rounding `fl`. -/
def frontPanelFl (fl : ℚ → ℚ) (width height : Nat) (depth : Nat → Nat)
    (minval maxval : Nat) : List (Triangle ℚ) :=
  (List.range (height - 1)).flatMap fun y =>
    let y0 : ℚ := fl (y : ℚ)
    let y1 : ℚ := fl (y0 + 1)
    (List.range (width - 1)).flatMap fun x =>
      let x0 : ℚ := fl (x : ℚ)
      let x1 : ℚ := fl (x0 + 1)
      let v00 := getDistanceAtFl fl width depth x y minval maxval
      let v10 := getDistanceAtFl fl width depth (x + 1) y minval maxval
      let v01 := getDistanceAtFl fl width depth x (y + 1) minval maxval
      let v11 := getDistanceAtFl fl width depth (x + 1) (y + 1) minval maxval
      [ { v0 := ⟨x0, y0, v00⟩, v1 := ⟨x1, y0, v10⟩, v2 := ⟨x1, y1, v11⟩ },
        { v0 := ⟨x0, y0, v00⟩, v1 := ⟨x1, y1, v11⟩, v2 := ⟨x0, y1, v01⟩ } ]

/-- Loop "the bottom" of `main` with rounding `fl`. -/
def bottomPanelFl (fl : ℚ → ℚ) (width : Nat) (depth : Nat → Nat) (minval maxval : Nat) :
    List (Triangle ℚ) :=
  (List.range (width - 1)).flatMap fun x =>
    let yi : Nat := 0
    let yf : ℚ := fl (yi : ℚ)
    let x0 : ℚ := fl (x : ℚ)
    let x1 : ℚ := fl (x0 + 1)
    let v0 := getDistanceAtFl fl width depth x yi minval maxval
    let v1 := getDistanceAtFl fl width depth (x + 1) yi minval maxval
    [ { v0 := ⟨x0, yf, back⟩, v1 := ⟨x1, yf, back⟩, v2 := ⟨x1, yf, v1⟩ },
      { v0 := ⟨x0, yf, back⟩, v1 := ⟨x1, yf, v1⟩, v2 := ⟨x0, yf, v0⟩ } ]

/-- Loop "the right side" of `main` with rounding `fl`. -/
def rightPanelFl (fl : ℚ → ℚ) (width height : Nat) (depth : Nat → Nat)
    (minval maxval : Nat) : List (Triangle ℚ) :=
  (List.range (height - 1)).flatMap fun y =>
    let xi : Nat := width - 1
    let xf : ℚ := fl (xi : ℚ)
    let y0 : ℚ := fl (y : ℚ)
    let y1 : ℚ := fl (y0 + 1)
    let v0 := getDistanceAtFl fl width depth xi y minval maxval
    let v1 := getDistanceAtFl fl width depth xi (y + 1) minval maxval
    [ { v0 := ⟨xf, y0, back⟩, v1 := ⟨xf, y1, back⟩, v2 := ⟨xf, y1, v1⟩ },
      { v0 := ⟨xf, y0, back⟩, v1 := ⟨xf, y1, v1⟩, v2 := ⟨xf, y0, v0⟩ } ]

/-- Loop "the top" of `main` with rounding `fl`. -/
def topPanelFl (fl : ℚ → ℚ) (width height : Nat) (depth : Nat → Nat)
    (minval maxval : Nat) : List (Triangle ℚ) :=
  (List.iota (width - 1)).flatMap fun x =>
    let yi : Nat := height - 1
    let yf : ℚ := fl (yi : ℚ)
    let x0 : ℚ := fl (x : ℚ)
    let x1 : ℚ := fl (x0 - 1)
    let v0 := getDistanceAtFl fl width depth x yi minval maxval
    let v1 := getDistanceAtFl fl width depth (x - 1) yi minval maxval
    [ { v0 := ⟨x0, yf, back⟩, v1 := ⟨x1, yf, back⟩, v2 := ⟨x1, yf, v1⟩ },
      { v0 := ⟨x0, yf, back⟩, v1 := ⟨x1, yf, v1⟩, v2 := ⟨x0, yf, v0⟩ } ]

/-- Loop "the left side" of `main` with rounding `fl`. -/
def leftPanelFl (fl : ℚ → ℚ) (width height : Nat) (depth : Nat → Nat)
    (minval maxval : Nat) : List (Triangle ℚ) :=
  (List.iota (height - 1)).flatMap fun y =>
    let xi : Nat := 0
    let xf : ℚ := fl (xi : ℚ)
    let y0 : ℚ := fl (y : ℚ)
    let y1 : ℚ := fl (y0 - 1)
    let v0 := getDistanceAtFl fl width depth xi y minval maxval
    let v1 := getDistanceAtFl fl width depth xi (y - 1) minval maxval
    [ { v0 := ⟨xf, y0, back⟩, v1 := ⟨xf, y1, back⟩, v2 := ⟨xf, y1, v1⟩ },
      { v0 := ⟨xf, y0, back⟩, v1 := ⟨xf, y1, v1⟩, v2 := ⟨xf, y0, v0⟩ } ]

/-- Loop "the back" of `main` with rounding `fl`. -/
def backPanelFl (fl : ℚ → ℚ) (width height : Nat) : List (Triangle ℚ) :=
  (List.range (height - 1)).flatMap fun y =>
    let y0 : ℚ := fl (y : ℚ)
    let y1 : ℚ := fl (y0 + 1)
    (List.range (width - 1)).flatMap fun x =>
      let x0 : ℚ := fl (x : ℚ)
      let x1 : ℚ := fl (x0 + 1)
      [ { v0 := ⟨x0, y0, back⟩, v1 := ⟨x1, y1, back⟩, v2 := ⟨x1, y0, back⟩ },
        { v0 := ⟨x0, y0, back⟩, v1 := ⟨x0, y1, back⟩, v2 := ⟨x1, y1, back⟩ } ]

/-- The vector `tris` of `main` with rounding `fl`: the range scan, which is
integer arithmetic, followed by the six loops in program order. -/
def mainTrisFl (fl : ℚ → ℚ) (width height : Nat) (depth : Nat → Nat) :
    List (Triangle ℚ) :=
  let r := depthRange width height depth
  frontPanelFl fl width height depth r.1 r.2
    ++ bottomPanelFl fl width depth r.1 r.2
    ++ rightPanelFl fl width height depth r.1 r.2
    ++ topPanelFl fl width height depth r.1 r.2
    ++ leftPanelFl fl width height depth r.1 r.2
    ++ backPanelFl fl width height

/-! # Theorems -/

/-! ## Triangle count -/

theorem length_flatMap_pair {α β : Type} (l : List α) (f g : α → β) :
    (l.flatMap fun a => [f a, g a]).length = 2 * l.length := by
  induction l with
  | nil => simp
  | cons a l ih =>
    simp only [List.flatMap_cons, List.length_append, List.length_cons, ih,
      List.length_nil]
    omega

theorem length_flatMap_const {α β : Type} (l : List α) (f : α → List β) (k : Nat)
    (h : ∀ a, (f a).length = k) : (l.flatMap f).length = l.length * k := by
  induction l with
  | nil => simp
  | cons a l ih =>
    simp only [List.flatMap_cons, List.length_append, List.length_cons, ih, h]
    ring

theorem length_frontPanel (width height : Nat) (depth : Nat → Nat) (mn mx : Nat) :
    (frontPanel width height depth mn mx).length = 2 * (width - 1) * (height - 1) := by
  unfold frontPanel
  rw [length_flatMap_const _ _ (2 * (width - 1))]
  · simp only [List.length_range]; ring
  · intro y
    simp only [length_flatMap_pair, List.length_range]

theorem length_backPanel (width height : Nat) :
    (backPanel width height).length = 2 * (width - 1) * (height - 1) := by
  unfold backPanel
  rw [length_flatMap_const _ _ (2 * (width - 1))]
  · simp only [List.length_range]; ring
  · intro y
    simp only [length_flatMap_pair, List.length_range]

theorem length_bottomPanel (width : Nat) (depth : Nat → Nat) (mn mx : Nat) :
    (bottomPanel width depth mn mx).length = 2 * (width - 1) := by
  unfold bottomPanel
  simp only [length_flatMap_pair, List.length_range]

theorem length_rightPanel (width height : Nat) (depth : Nat → Nat) (mn mx : Nat) :
    (rightPanel width height depth mn mx).length = 2 * (height - 1) := by
  unfold rightPanel
  simp only [length_flatMap_pair, List.length_range]

theorem length_topPanel (width height : Nat) (depth : Nat → Nat) (mn mx : Nat) :
    (topPanel width height depth mn mx).length = 2 * (width - 1) := by
  unfold topPanel
  simp only [length_flatMap_pair, List.length_iota]

theorem length_leftPanel (width height : Nat) (depth : Nat → Nat) (mn mx : Nat) :
    (leftPanel width height depth mn mx).length = 2 * (height - 1) := by
  unfold leftPanel
  simp only [length_flatMap_pair, List.length_iota]

theorem length_meshFor (width height : Nat) (depth : Nat → Nat) (mn mx : Nat) :
    (meshFor width height depth mn mx).length
      = 2 * (width - 1) * (height - 1) + 2 * (width - 1) + 2 * (height - 1)
        + 2 * (width - 1) + 2 * (height - 1) + 2 * (width - 1) * (height - 1) := by
  simp only [meshFor, List.length_append, length_frontPanel, length_bottomPanel,
    length_rightPanel, length_topPanel, length_leftPanel, length_backPanel]

/-- C1: for every `W × H` frame with `W ≥ 2` and `H ≥ 2`, whatever the samples,
the six loops emit exactly
`2(W-1)(H-1) + 2(W-1) + 2(H-1) + 2(W-1) + 2(H-1) + 2(W-1)(H-1)` triangles; a
`2 × 2` frame gives 12 and a `3 × 3` frame gives 32. -/
theorem triangle_count (W H : Nat) (depth : Nat → Nat) (hW : 2 ≤ W) (hH : 2 ≤ H) :
    (mainTris W H depth).length
        = 2 * (W - 1) * (H - 1) + 2 * (W - 1) + 2 * (H - 1)
          + 2 * (W - 1) + 2 * (H - 1) + 2 * (W - 1) * (H - 1)
      ∧ (W = 2 → H = 2 → (mainTris W H depth).length = 12)
      ∧ (W = 3 → H = 3 → (mainTris W H depth).length = 32) := by
  have hlen := length_meshFor W H depth (depthRange W H depth).1 (depthRange W H depth).2
  refine ⟨hlen, ?_, ?_⟩
  · intro h2 h2'
    subst h2 h2'
    exact hlen
  · intro h3 h3'
    subst h3 h3'
    exact hlen

/-- Witness of `triangle_count`: the two-level `2 × 2` frame of the spec. -/
theorem triangle_count_witness :
    (mainTris 2 2 (fun i => [100, 200, 100, 200].getD i 0)).length = 12 :=
  (triangle_count 2 2 (fun i => [100, 200, 100, 200].getD i 0)
    (by decide) (by decide)).2.1 rfl rfl

/-- C2 (as amended): for the sensor size `width = 640`, `height = 480` the mesh
builder emits 1,228,796 triangles, whatever the frame. -/
theorem triangle_count_sensor (depth : Nat → Nat) :
    (mainTris 640 480 depth).length = 1228796 :=
  (length_meshFor 640 480 depth (depthRange 640 480 depth).1
    (depthRange 640 480 depth).2).trans (by norm_num)

/-- C2 (as stated) fails: on the all-zero `640 × 480` frame the number of emitted
triangles is not 1,228,836. -/
theorem triangle_count_sensor_not_1228836 :
    (mainTris 640 480 (fun _ => 0)).length ≠ 1228836 := by
  have h := length_meshFor 640 480 (fun _ => 0) (depthRange 640 480 (fun _ => 0)).1
    (depthRange 640 480 (fun _ => 0)).2
  have h2 : (mainTris 640 480 (fun _ => 0)).length = 1228796 := h.trans (by norm_num)
  rw [h2]
  decide

/-! ## Depth range scan and depth remapper -/

theorem foldl_flatMap_eq {α β γ : Type} (l : List α) (g : α → List β) (f : γ → β → γ)
    (init : γ) :
    (l.flatMap g).foldl f init = l.foldl (fun acc a => (g a).foldl f acc) init := by
  induction l generalizing init with
  | nil => rfl
  | cons a l ih => simp [List.flatMap_cons, List.foldl_append, ih]

theorem depthRange_eq_foldl (width height : Nat) (depth : Nat → Nat) :
    depthRange width height depth
      = (scanIndices width height).foldl (scanStep depth) (65535, 0) := by
  unfold depthRange scanIndices
  rw [foldl_flatMap_eq]
  simp only [List.foldl_map]
  rfl

theorem mem_scanIndices (width height i : Nat) :
    i ∈ scanIndices width height ↔ i < width * height := by
  unfold scanIndices
  simp only [List.mem_flatMap, List.mem_range, List.mem_map]
  constructor
  · rintro ⟨y, hy, x, hx, rfl⟩
    calc y * width + x < y * width + width := by omega
      _ = width * (y + 1) := by ring
      _ ≤ width * height := Nat.mul_le_mul_left _ hy
  · intro h
    have hw : 0 < width := by
      rcases Nat.eq_zero_or_pos width with h0 | h0
      · simp [h0] at h
      · exact h0
    refine ⟨i / width, ?_, i % width, Nat.mod_lt _ hw, ?_⟩
    · exact Nat.div_lt_of_lt_mul h
    · rw [mul_comm]; exact Nat.div_add_mod i width

theorem scan_le (depth : Nat → Nat) (l : List Nat) (acc : Nat × Nat) :
    (l.foldl (scanStep depth) acc).1 ≤ acc.1 ∧ acc.2 ≤ (l.foldl (scanStep depth) acc).2 := by
  induction l generalizing acc with
  | nil => simp
  | cons i l ih =>
    simp only [List.foldl_cons]
    have h := ih (scanStep depth acc i)
    simp only [scanStep] at h ⊢
    omega

theorem scan_bounds (depth : Nat → Nat) (l : List Nat) (acc : Nat × Nat) (i : Nat)
    (hi : i ∈ l) :
    (l.foldl (scanStep depth) acc).1 ≤ depth i
      ∧ depth i ≤ (l.foldl (scanStep depth) acc).2 := by
  induction l generalizing acc with
  | nil => simp at hi
  | cons j l ih =>
    simp only [List.foldl_cons]
    rcases List.mem_cons.mp hi with rfl | hi
    · have h := scan_le depth l (scanStep depth acc i)
      simp only [scanStep] at h ⊢
      omega
    · exact ih _ hi

theorem scan_min_attained (depth : Nat → Nat) (l : List Nat) (acc : Nat × Nat) :
    (l.foldl (scanStep depth) acc).1 = acc.1
      ∨ ∃ i ∈ l, depth i = (l.foldl (scanStep depth) acc).1 := by
  induction l generalizing acc with
  | nil => simp
  | cons j l ih =>
    simp only [List.foldl_cons]
    rcases ih (scanStep depth acc j) with h | ⟨i, hi, h⟩
    · rcases Nat.le_total acc.1 (depth j) with hle | hle
      · left; rw [h]; simp [scanStep, hle]
      · right; exact ⟨j, List.mem_cons_self _ _, by rw [h]; simp [scanStep, hle]⟩
    · right; exact ⟨i, List.mem_cons_of_mem _ hi, h⟩

theorem scan_max_attained (depth : Nat → Nat) (l : List Nat) (acc : Nat × Nat) :
    (l.foldl (scanStep depth) acc).2 = acc.2
      ∨ ∃ i ∈ l, depth i = (l.foldl (scanStep depth) acc).2 := by
  induction l generalizing acc with
  | nil => simp
  | cons j l ih =>
    simp only [List.foldl_cons]
    rcases ih (scanStep depth acc j) with h | ⟨i, hi, h⟩
    · rcases Nat.le_total (depth j) acc.2 with hle | hle
      · left; rw [h]; simp [scanStep, hle]
      · right; exact ⟨j, List.mem_cons_self _ _, by rw [h]; simp [scanStep, hle]⟩
    · right; exact ⟨i, List.mem_cons_of_mem _ hi, h⟩

/-- Every sample of the frame lies between the scanned `minval` and `maxval`. -/
theorem depthRange_bounds (width height : Nat) (depth : Nat → Nat) (i : Nat)
    (hi : i < width * height) :
    (depthRange width height depth).1 ≤ depth i
      ∧ depth i ≤ (depthRange width height depth).2 := by
  rw [depthRange_eq_foldl]
  exact scan_bounds depth _ _ i ((mem_scanIndices width height i).mpr hi)

theorem index_lt (width height x y : Nat) (hx : x < width) (hy : y < height) :
    y * width + x < width * height :=
  calc y * width + x < y * width + width := by omega
    _ = width * (y + 1) := by ring
    _ ≤ width * height := Nat.mul_le_mul_left _ hy

/-- With `minval < maxval`, a sample between them is remapped into `[0, 250]`. -/
theorem getDistanceAt_bounds (width : Nat) (depth : Nat → Nat) (x y mn mx : Nat)
    (hlt : mn < mx) (hlo : mn ≤ depth (y * width + x)) (hhi : depth (y * width + x) ≤ mx) :
    0 ≤ getDistanceAt width depth x y mn mx ∧ getDistanceAt width depth x y mn mx ≤ 250 := by
  unfold getDistanceAt
  simp only
  have hpos : (0 : ℚ) < (((mx : Int) - (mn : Int) : Int) : ℚ) := by
    have : (0 : Int) < (mx : Int) - (mn : Int) := by omega
    exact_mod_cast this
  have h1 : (0 : ℚ) ≤ (((mx : Int) - (depth (y * width + x) : Int) : Int) : ℚ) := by
    have : (0 : Int) ≤ (mx : Int) - (depth (y * width + x) : Int) := by omega
    exact_mod_cast this
  have h2 : (((mx : Int) - (depth (y * width + x) : Int) : Int) : ℚ)
      ≤ (((mx : Int) - (mn : Int) : Int) : ℚ) := by
    have : (mx : Int) - (depth (y * width + x) : Int) ≤ (mx : Int) - (mn : Int) := by omega
    exact_mod_cast this
  constructor
  · positivity
  · rw [← mul_div_assoc, div_le_iff₀ hpos]
    nlinarith


theorem getDistanceAt_at_min (width : Nat) (depth : Nat → Nat) (x y mn mx : Nat)
    (hlt : mn < mx) (h : depth (y * width + x) = mn) :
    getDistanceAt width depth x y mn mx = 250 := by
  unfold getDistanceAt
  simp only [h]
  have hpos : (((mx : Int) - (mn : Int) : Int) : ℚ) ≠ 0 := by
    have : (mx : Int) - (mn : Int) ≠ 0 := by omega
    exact_mod_cast this
  have key : ∀ a : ℚ, a ≠ 0 → a * (250 / a) = 250 := fun a ha => by field_simp
  exact key _ hpos

theorem getDistanceAt_at_max (width : Nat) (depth : Nat → Nat) (x y mn mx : Nat)
    (h : depth (y * width + x) = mx) :
    getDistanceAt width depth x y mn mx = 0 := by
  unfold getDistanceAt
  simp [h]

/-- C6: in every frame whose scanned range has `minval < maxval`, each pixel
`(x, y)` of the frame is remapped to a `Z` with `0 ≤ Z ≤ 250`; a pixel whose raw
sample is `minval` gets 250 and one whose raw sample is `maxval` gets 0. -/
theorem remap_bounds (W H : Nat) (depth : Nat → Nat) (x y : Nat)
    (hx : x < W) (hy : y < H)
    (hlt : (depthRange W H depth).1 < (depthRange W H depth).2) :
    0 ≤ getDistanceAt W depth x y (depthRange W H depth).1 (depthRange W H depth).2
      ∧ getDistanceAt W depth x y (depthRange W H depth).1 (depthRange W H depth).2 ≤ 250
      ∧ (depth (y * W + x) = (depthRange W H depth).1 →
          getDistanceAt W depth x y (depthRange W H depth).1 (depthRange W H depth).2 = 250)
      ∧ (depth (y * W + x) = (depthRange W H depth).2 →
          getDistanceAt W depth x y (depthRange W H depth).1 (depthRange W H depth).2 = 0) := by
  have hb := depthRange_bounds W H depth (y * W + x) (index_lt W H x y hx hy)
  have h := getDistanceAt_bounds W depth x y _ _ hlt hb.1 hb.2
  exact ⟨h.1, h.2, getDistanceAt_at_min W depth x y _ _ hlt,
    getDistanceAt_at_max W depth x y _ _⟩

/-- Witness of `remap_bounds`: pixel `(0, 0)` of the two-level `2 × 2` frame. -/
theorem remap_bounds_witness :
    getDistanceAt 2 (fun i => [100, 200, 100, 200].getD i 0) 0 0
      (depthRange 2 2 (fun i => [100, 200, 100, 200].getD i 0)).1
      (depthRange 2 2 (fun i => [100, 200, 100, 200].getD i 0)).2 ≤ 250 :=
  (remap_bounds 2 2 (fun i => [100, 200, 100, 200].getD i 0) 0 0
    (by decide) (by decide) (by decide)).2.1

/-- C7: for a non-empty frame of 16-bit samples the scan of `main` returns the
true minimum and maximum: every sample lies between them, both occur in the
frame, hence `minval ≤ maxval`; the frame `[[0, 2047], [1023, 1023]]` yields
`(0, 2047)`. -/
theorem depthRange_is_min_max (W H : Nat) (depth : Nat → Nat) (hW : 0 < W) (hH : 0 < H)
    (h16 : ∀ i, i < W * H → depth i ≤ 65535) :
    (∀ i, i < W * H →
        (depthRange W H depth).1 ≤ depth i ∧ depth i ≤ (depthRange W H depth).2)
      ∧ (∃ i, i < W * H ∧ depth i = (depthRange W H depth).1)
      ∧ (∃ i, i < W * H ∧ depth i = (depthRange W H depth).2)
      ∧ (depthRange W H depth).1 ≤ (depthRange W H depth).2
      ∧ depthRange 2 2 (fun i => [0, 2047, 1023, 1023].getD i 0) = (0, 2047) := by
  have h0 : 0 < W * H := Nat.mul_pos hW hH
  have hb := depthRange_bounds W H depth
  have hmin : ∃ i, i < W * H ∧ depth i = (depthRange W H depth).1 := by
    have h := scan_min_attained depth (scanIndices W H) (65535, 0)
    rw [← depthRange_eq_foldl] at h
    rcases h with h | ⟨i, hi, h⟩
    · refine ⟨0, h0, ?_⟩
      have h1 := (hb 0 h0).1
      have h2 := h16 0 h0
      simp only at h
      omega
    · exact ⟨i, (mem_scanIndices W H i).mp hi, h⟩
  have hmax : ∃ i, i < W * H ∧ depth i = (depthRange W H depth).2 := by
    have h := scan_max_attained depth (scanIndices W H) (65535, 0)
    rw [← depthRange_eq_foldl] at h
    rcases h with h | ⟨i, hi, h⟩
    · refine ⟨0, h0, ?_⟩
      have h1 := (hb 0 h0).2
      simp only at h
      omega
    · exact ⟨i, (mem_scanIndices W H i).mp hi, h⟩
  refine ⟨hb, hmin, hmax, ?_, by decide⟩
  have := hb 0 h0
  omega

/-- Witness of `depthRange_is_min_max`: the `2 × 2` frame
`[[0, 2047], [1023, 1023]]`. -/
theorem depthRange_is_min_max_witness :
    (depthRange 2 2 (fun i => [0, 2047, 1023, 1023].getD i 0)).1
      ≤ (depthRange 2 2 (fun i => [0, 2047, 1023, 1023].getD i 0)).2 :=
  (depthRange_is_min_max 2 2 (fun i => [0, 2047, 1023, 1023].getD i 0)
    (by decide) (by decide) (by decide)).2.2.2.1

/-! ## The mesh in combinatorial form -/

theorem frontPanel_eq (W H : Nat) (depth : Nat → Nat) (mn mx : Nat) :
    frontPanel W H depth mn mx
      = (frontNodes W H).map (placeTri (heightField W depth mn mx)) := by
  simp [frontPanel, frontNodes, List.map_flatMap, placeTri, place, heightField]

theorem backPanel_eq (W H : Nat) (Z : Nat → Nat → ℚ) :
    backPanel W H = (backNodes W H).map (placeTri Z) := by
  simp [backPanel, backNodes, List.map_flatMap, placeTri, place]

theorem bottomPanel_eq (W : Nat) (depth : Nat → Nat) (mn mx : Nat) :
    bottomPanel W depth mn mx
      = (bottomNodes W).map (placeTri (heightField W depth mn mx)) := by
  simp [bottomPanel, bottomNodes, skirtQuad, List.map_flatMap, placeTri, place, heightField]

theorem rightPanel_eq (W H : Nat) (depth : Nat → Nat) (mn mx : Nat) :
    rightPanel W H depth mn mx
      = (rightNodes W H).map (placeTri (heightField W depth mn mx)) := by
  simp [rightPanel, rightNodes, skirtQuad, List.map_flatMap, placeTri, place, heightField]

theorem topPanel_eq (W H : Nat) (depth : Nat → Nat) (mn mx : Nat) :
    topPanel W H depth mn mx
      = (topNodes W H).map (placeTri (heightField W depth mn mx)) := by
  unfold topPanel topNodes
  rw [List.map_flatMap]
  apply List.flatMap_congr
  intro x hx
  have h1 : 1 ≤ x := (List.mem_iota.mp hx).1
  simp [skirtQuad, placeTri, place, heightField, Nat.cast_sub h1]

theorem leftPanel_eq (W H : Nat) (depth : Nat → Nat) (mn mx : Nat) :
    leftPanel W H depth mn mx
      = (leftNodes H).map (placeTri (heightField W depth mn mx)) := by
  unfold leftPanel leftNodes
  rw [List.map_flatMap]
  apply List.flatMap_congr
  intro y hy
  have h1 : 1 ≤ y := (List.mem_iota.mp hy).1
  simp [skirtQuad, placeTri, place, heightField, Nat.cast_sub h1]

/-- The emitted mesh is the combinatorial mesh placed over the height field. -/
theorem meshFor_eq (W H : Nat) (depth : Nat → Nat) (mn mx : Nat) :
    meshFor W H depth mn mx
      = (meshNodes W H).map (placeTri (heightField W depth mn mx)) := by
  simp only [meshFor, meshNodes, List.map_append, frontPanel_eq, bottomPanel_eq,
    rightPanel_eq, topPanel_eq, leftPanel_eq,
    backPanel_eq W H (heightField W depth mn mx)]


/-! ## Rear cap and outward normals -/

/-- The rear cap is the tail of the emitted list. -/
theorem drop_meshFor (W H : Nat) (depth : Nat → Nat) (mn mx : Nat) :
    (meshFor W H depth mn mx).drop
        ((meshFor W H depth mn mx).length - 2 * (W - 1) * (H - 1))
      = backPanel W H := by
  rw [length_meshFor]
  unfold meshFor
  apply List.drop_left'
  simp only [List.length_append, length_frontPanel, length_bottomPanel,
    length_rightPanel, length_topPanel, length_leftPanel]
  omega

theorem mem_backPanel {W H : Nat} {t : Triangle ℚ} (h : t ∈ backPanel W H) :
    ∃ x y : Nat, x < W - 1 ∧ y < H - 1 ∧
      (t = ⟨⟨x, y, back⟩, ⟨(x : ℚ) + 1, (y : ℚ) + 1, back⟩, ⟨(x : ℚ) + 1, y, back⟩⟩
        ∨ t = ⟨⟨x, y, back⟩, ⟨x, (y : ℚ) + 1, back⟩, ⟨(x : ℚ) + 1, (y : ℚ) + 1, back⟩⟩) := by
  simp only [backPanel, List.mem_flatMap, List.mem_range, List.mem_cons,
    List.mem_singleton, List.not_mem_nil, or_false] at h
  obtain ⟨y, hy, x, hx, h⟩ := h
  exact ⟨x, y, hx, hy, h⟩

/-- C10: for every `W × H` frame with `W, H ≥ 2`, the last `2(W-1)(H-1)` emitted
triangles (the rear cap) have all three vertices at `Z = -3`, and the
z-component of the winding normal `(v1 - v0) × (v2 - v0)` is strictly negative. -/
theorem rear_cap (W H : Nat) (depth : Nat → Nat) (_hW : 2 ≤ W) (_hH : 2 ≤ H) :
    ((mainTris W H depth).drop
        ((mainTris W H depth).length - 2 * (W - 1) * (H - 1))).length
        = 2 * (W - 1) * (H - 1)
      ∧ ∀ t ∈ (mainTris W H depth).drop
          ((mainTris W H depth).length - 2 * (W - 1) * (H - 1)),
        t.v0.z = -3 ∧ t.v1.z = -3 ∧ t.v2.z = -3 ∧ (normalDir t).z < 0 := by
  have hd := drop_meshFor W H depth (depthRange W H depth).1 (depthRange W H depth).2
  have hd' : (mainTris W H depth).drop
      ((mainTris W H depth).length - 2 * (W - 1) * (H - 1)) = backPanel W H := hd
  rw [hd']
  refine ⟨length_backPanel W H, ?_⟩
  intro t ht
  obtain ⟨x, y, -, -, rfl | rfl⟩ := mem_backPanel ht <;>
    norm_num [normalDir, cross, Vertex.sub, back]

/-- Witness of `rear_cap`: the two-level `2 × 2` frame. -/
theorem rear_cap_witness :
    ((mainTris 2 2 (fun i => [100, 200, 100, 200].getD i 0)).drop
        ((mainTris 2 2 (fun i => [100, 200, 100, 200].getD i 0)).length
          - 2 * (2 - 1) * (2 - 1))).length = 2 * (2 - 1) * (2 - 1) :=
  (rear_cap 2 2 (fun i => [100, 200, 100, 200].getD i 0) (by decide) (by decide)).1


theorem skirtQuad_dot (Z : Nat → Nat → ℚ) (c : Vertex ℚ) (px py qx qy : Nat)
    (t : NodeTri) (ht : t ∈ skirtQuad px py qx qy) :
    ∃ k : ℚ, (k = Z qx qy + 3 ∨ k = Z px py + 3) ∧
      dot (normalDir (placeTri Z t)) ((placeTri Z t).v0.sub c)
        = k * (((qy : ℚ) - py) * ((px : ℚ) - c.x) - ((qx : ℚ) - px) * ((py : ℚ) - c.y)) := by
  simp only [skirtQuad, List.mem_cons, List.mem_singleton, List.not_mem_nil, or_false] at ht
  rcases ht with rfl | rfl
  · refine ⟨Z qx qy + 3, Or.inl rfl, ?_⟩
    simp [placeTri, place, normalDir, cross, Vertex.sub, dot, back]
    ring
  · refine ⟨Z px py + 3, Or.inr rfl, ?_⟩
    simp [placeTri, place, normalDir, cross, Vertex.sub, dot, back]
    ring

theorem bboxCentroid_x (W H : Nat) : (bboxCentroid W H).x = ((W - 1 : Nat) : ℚ) / 2 := by
  simp [bboxCentroid]; ring

theorem bboxCentroid_y (W H : Nat) : (bboxCentroid W H).y = ((H - 1 : Nat) : ℚ) / 2 := by
  simp [bboxCentroid]; ring

theorem bboxCentroid_z (W H : Nat) : (bboxCentroid W H).z = 247 / 2 := by
  simp [bboxCentroid]; norm_num


theorem heightField_nonneg (W H : Nat) (depth : Nat → Nat) (x y : Nat)
    (hx : x < W) (hy : y < H)
    (hlt : (depthRange W H depth).1 < (depthRange W H depth).2) :
    0 ≤ heightField W depth (depthRange W H depth).1 (depthRange W H depth).2 x y := by
  have hb := depthRange_bounds W H depth (y * W + x) (index_lt W H x y hx hy)
  exact (getDistanceAt_bounds W depth x y _ _ hlt hb.1 hb.2).1

theorem take_meshFor (W H : Nat) (depth : Nat → Nat) (mn mx : Nat) :
    (meshFor W H depth mn mx).take (2 * (W - 1) * (H - 1)) = frontPanel W H depth mn mx := by
  unfold meshFor
  simp only [List.append_assoc]
  exact List.take_left' (length_frontPanel W H depth mn mx)

theorem drop_front_meshFor (W H : Nat) (depth : Nat → Nat) (mn mx : Nat) :
    (meshFor W H depth mn mx).drop (2 * (W - 1) * (H - 1))
      = bottomPanel W depth mn mx ++ rightPanel W H depth mn mx
        ++ topPanel W H depth mn mx ++ leftPanel W H depth mn mx ++ backPanel W H := by
  unfold meshFor
  simp only [List.append_assoc]
  exact List.drop_left' (length_frontPanel W H depth mn mx)

/-- Skirt normals point away from the centroid of the bounding box. -/
theorem skirt_away (W H : Nat) (Z : Nat → Nat → ℚ) (hW : 2 ≤ W) (hH : 2 ≤ H)
    (hZ : ∀ x y, x < W → y < H → 0 ≤ Z x y) (t : NodeTri)
    (ht : t ∈ bottomNodes W ++ rightNodes W H ++ topNodes W H ++ leftNodes H) :
    0 < dot (normalDir (placeTri Z t)) ((placeTri Z t).v0.sub (bboxCentroid W H)) := by
  have hW1 : (1 : ℚ) ≤ ((W - 1 : Nat) : ℚ) := by
    have : 1 ≤ W - 1 := by omega
    exact_mod_cast this
  have hH1 : (1 : ℚ) ≤ ((H - 1 : Nat) : ℚ) := by
    have : 1 ≤ H - 1 := by omega
    exact_mod_cast this
  simp only [List.mem_append, bottomNodes, rightNodes, topNodes, leftNodes,
    List.mem_flatMap, List.mem_range, List.mem_iota] at ht
  rcases ht with ((⟨x, hx, ht⟩ | ⟨y, hy, ht⟩) | ⟨x, hx, ht⟩) | ⟨y, hy, ht⟩
  · obtain ⟨k, hk, he⟩ := skirtQuad_dot Z (bboxCentroid W H) _ _ _ _ t ht
    have hkpos : 0 < k := by
      rcases hk with rfl | rfl
      · have := hZ (x + 1) 0 (by omega) (by omega); linarith
      · have := hZ x 0 (by omega) (by omega); linarith
    rw [he, bboxCentroid_x, bboxCentroid_y]
    push_cast
    apply mul_pos hkpos
    linarith
  · obtain ⟨k, hk, he⟩ := skirtQuad_dot Z (bboxCentroid W H) _ _ _ _ t ht
    have hkpos : 0 < k := by
      rcases hk with rfl | rfl
      · have := hZ (W - 1) (y + 1) (by omega) (by omega); linarith
      · have := hZ (W - 1) y (by omega) (by omega); linarith
    rw [he, bboxCentroid_x, bboxCentroid_y]
    push_cast
    apply mul_pos hkpos
    linarith
  · obtain ⟨k, hk, he⟩ := skirtQuad_dot Z (bboxCentroid W H) _ _ _ _ t ht
    have hkpos : 0 < k := by
      rcases hk with rfl | rfl
      · have := hZ (x - 1) (H - 1) (by omega) (by omega); linarith
      · have := hZ x (H - 1) (by omega) (by omega); linarith
    rw [he, bboxCentroid_x, bboxCentroid_y]
    have hx1 : ((x - 1 : Nat) : ℚ) = (x : ℚ) - 1 := Nat.cast_pred hx.1
    rw [hx1]
    apply mul_pos hkpos
    linarith
  · obtain ⟨k, hk, he⟩ := skirtQuad_dot Z (bboxCentroid W H) _ _ _ _ t ht
    have hkpos : 0 < k := by
      rcases hk with rfl | rfl
      · have := hZ 0 (y - 1) (by omega) (by omega); linarith
      · have := hZ 0 y (by omega) (by omega); linarith
    rw [he, bboxCentroid_x, bboxCentroid_y]
    have hy1 : ((y - 1 : Nat) : ℚ) = (y : ℚ) - 1 := Nat.cast_pred hy.1
    rw [hy1]
    push_cast
    apply mul_pos hkpos
    linarith

theorem back_away (W H : Nat) (t : Triangle ℚ) (ht : t ∈ backPanel W H) :
    0 < dot (normalDir t) (t.v0.sub (bboxCentroid W H)) := by
  obtain ⟨x, y, -, -, rfl | rfl⟩ := mem_backPanel ht <;>
    norm_num [normalDir, cross, Vertex.sub, back, dot, bboxCentroid_z]

theorem mem_frontPanel {W H : Nat} {depth : Nat → Nat} {mn mx : Nat} {t : Triangle ℚ} :
    t ∈ frontPanel W H depth mn mx ↔
    ∃ x y : Nat, x < W - 1 ∧ y < H - 1 ∧
      (t = ⟨⟨x, y, getDistanceAt W depth x y mn mx⟩,
            ⟨(x : ℚ) + 1, y, getDistanceAt W depth (x + 1) y mn mx⟩,
            ⟨(x : ℚ) + 1, (y : ℚ) + 1, getDistanceAt W depth (x + 1) (y + 1) mn mx⟩⟩
        ∨ t = ⟨⟨x, y, getDistanceAt W depth x y mn mx⟩,
            ⟨(x : ℚ) + 1, (y : ℚ) + 1, getDistanceAt W depth (x + 1) (y + 1) mn mx⟩,
            ⟨x, (y : ℚ) + 1, getDistanceAt W depth x (y + 1) mn mx⟩⟩) := by
  simp only [frontPanel, List.mem_flatMap, List.mem_range, List.mem_cons,
    List.mem_singleton, List.not_mem_nil, or_false]
  constructor
  · rintro ⟨y, hy, x, hx, h⟩
    exact ⟨x, y, hx, hy, h⟩
  · rintro ⟨x, y, hx, hy, h⟩
    exact ⟨y, hy, x, hx, h⟩

/-- C5 (as amended): for every `W × H` frame with `W, H ≥ 2` and
`minval < maxval`, every emitted triangle after the front surface (the four
skirts and the rear cap) has a winding normal `n = (v1 - v0) × (v2 - v0)` that
points away from the centroid `c` of the bounding box, `n · (v0 - c) > 0`; every
front-surface triangle has a winding normal whose z-component is `1`, so it
faces `+Z`, away from the rear plane. -/
theorem outward_normals (W H : Nat) (depth : Nat → Nat) (hW : 2 ≤ W) (hH : 2 ≤ H)
    (hlt : (depthRange W H depth).1 < (depthRange W H depth).2) :
    (∀ t ∈ (mainTris W H depth).drop (2 * (W - 1) * (H - 1)),
        0 < dot (normalDir t) (t.v0.sub (bboxCentroid W H)))
      ∧ (∀ t ∈ (mainTris W H depth).take (2 * (W - 1) * (H - 1)),
        (normalDir t).z = 1) := by
  constructor
  · intro t ht
    have hd := drop_front_meshFor W H depth (depthRange W H depth).1 (depthRange W H depth).2
    have ht' : t ∈ bottomPanel W depth (depthRange W H depth).1 (depthRange W H depth).2
        ++ rightPanel W H depth (depthRange W H depth).1 (depthRange W H depth).2
        ++ topPanel W H depth (depthRange W H depth).1 (depthRange W H depth).2
        ++ leftPanel W H depth (depthRange W H depth).1 (depthRange W H depth).2
        ++ backPanel W H := hd ▸ ht
    rcases List.mem_append.mp ht' with hs | hb
    · rw [bottomPanel_eq, rightPanel_eq, topPanel_eq, leftPanel_eq, ← List.map_append,
        ← List.map_append, ← List.map_append] at hs
      obtain ⟨nt, hnt, rfl⟩ := List.mem_map.mp hs
      exact skirt_away W H _ hW hH
        (fun x y hx hy => heightField_nonneg W H depth x y hx hy hlt) nt hnt
    · exact back_away W H t hb
  · intro t ht
    have hd := take_meshFor W H depth (depthRange W H depth).1 (depthRange W H depth).2
    have ht' : t ∈ frontPanel W H depth (depthRange W H depth).1 (depthRange W H depth).2 :=
      hd ▸ ht
    obtain ⟨x, y, -, -, rfl | rfl⟩ := mem_frontPanel.mp ht' <;>
      norm_num [normalDir, cross, Vertex.sub]


/-- Witness of `outward_normals`: the two-level `2 × 2` frame. -/
theorem outward_normals_witness :
    (∀ t ∈ (mainTris 2 2 (fun i => [100, 200, 100, 200].getD i 0)).drop
          (2 * (2 - 1) * (2 - 1)),
        0 < dot (normalDir t) (t.v0.sub (bboxCentroid 2 2)))
      ∧ (∀ t ∈ (mainTris 2 2 (fun i => [100, 200, 100, 200].getD i 0)).take
          (2 * (2 - 1) * (2 - 1)),
        (normalDir t).z = 1) :=
  outward_normals 2 2 (fun i => [100, 200, 100, 200].getD i 0)
    (by decide) (by decide) (by decide)

theorem mem_mainTris_of_front {W H : Nat} {depth : Nat → Nat} {t : Triangle ℚ}
    (h : t ∈ frontPanel W H depth (depthRange W H depth).1 (depthRange W H depth).2) :
    t ∈ mainTris W H depth := by
  unfold mainTris meshFor
  simp only [List.mem_append]
  exact Or.inl (Or.inl (Or.inl (Or.inl (Or.inl h))))

/-- C5 (as stated) fails: in the `2 × 2` frame `[[200, 200], [100, 200]]`
(`minval = 100 < maxval = 200`) the first front triangle lies flat at `Z = 0`;
its winding normal is `(0, 0, 1)` and `n · (v0 - c) = -247/2`, not positive. -/
theorem centroid_test_fails :
    (depthRange 2 2 (fun i => [200, 200, 100, 200].getD i 0)).1
        < (depthRange 2 2 (fun i => [200, 200, 100, 200].getD i 0)).2
      ∧ ∃ t ∈ mainTris 2 2 (fun i => [200, 200, 100, 200].getD i 0),
          t = ⟨⟨0, 0, 0⟩, ⟨1, 0, 0⟩, ⟨1, 1, 0⟩⟩
            ∧ ¬ 0 < dot (normalDir t) (t.v0.sub (bboxCentroid 2 2)) := by
  refine ⟨by decide, ⟨⟨0, 0, 0⟩, ⟨1, 0, 0⟩, ⟨1, 1, 0⟩⟩, ?_, rfl, ?_⟩
  · apply mem_mainTris_of_front
    rw [mem_frontPanel]
    refine ⟨0, 0, by decide, by decide, Or.inl ?_⟩
    have hr : depthRange 2 2 (fun i => [200, 200, 100, 200].getD i 0) = (100, 200) := by
      decide
    rw [hr]
    norm_num [getDistanceAt]
  · norm_num [normalDir, cross, Vertex.sub, dot, bboxCentroid]

/-! ## Binary STL writer -/

theorem read32_bytes32 (w : Nat) (rest : List Nat) :
    read32 (bytes32 w ++ rest) = some (w % 4294967296, rest) := by
  simp only [bytes32, read32, le32, List.cons_append, List.nil_append, Option.some.injEq,
    Prod.mk.injEq, and_true]
  omega

theorem readFloat_bytes32 (f : Float32) (rest : List Nat) :
    readFloat (bytes32 f.val ++ rest) = some (f, rest) := by
  simp only [readFloat, read32_bytes32, Option.some.injEq, Prod.mk.injEq, and_true]
  apply Fin.ext
  simp [Fin.ofNat]

theorem readVertex_writeVertex (v : Vertex Float32) (rest : List Nat) :
    readVertex (writeVertex v ++ rest) = some (v, rest) := by
  simp [readVertex, writeVertex, List.append_assoc, readFloat_bytes32]

theorem readRecord_writeTriangle (normal : Triangle Float32 → Vertex Float32)
    (t : Triangle Float32) (rest : List Nat) :
    readRecord (writeTriangle normal t ++ rest) = some (recordOf normal t, rest) := by
  simp [readRecord, writeTriangle, List.append_assoc, readVertex_writeVertex, bytes16,
    read16, recordOf]

theorem readRecords_write (normal : Triangle Float32 → Vertex Float32)
    (tris : List (Triangle Float32)) (rest : List Nat) :
    readRecords tris.length (tris.flatMap (writeTriangle normal) ++ rest)
      = some (tris.map (recordOf normal)) := by
  induction tris with
  | nil => simp [readRecords]
  | cons t tris ih =>
    simp [readRecords, List.flatMap_cons, List.append_assoc, readRecord_writeTriangle, ih]

theorem length_writeTriangle (normal : Triangle Float32 → Vertex Float32)
    (t : Triangle Float32) : (writeTriangle normal t).length = 50 := by
  simp [writeTriangle, writeVertex, bytes32, bytes16]

theorem length_writeBinary (normal : Triangle Float32 → Vertex Float32)
    (tris : List (Triangle Float32)) :
    (writeBinary normal tris).length = 84 + 50 * tris.length := by
  have h : (tris.flatMap (writeTriangle normal)).length = tris.length * 50 := by
    induction tris with
    | nil => simp
    | cons t tris ih =>
      simp only [List.flatMap_cons, List.length_append, ih, length_writeTriangle,
        List.length_cons]
      ring
  simp only [writeBinary, List.length_append, List.length_replicate, bytes32,
    List.length_cons, List.length_nil, h]
  omega

theorem readBinary_writeBinary (normal : Triangle Float32 → Vertex Float32)
    (tris : List (Triangle Float32)) (hN : tris.length < 4294967296) :
    readBinary (writeBinary normal tris)
      = some (tris.length, tris.map (recordOf normal)) := by
  have hdrop : (writeBinary normal tris).drop 80
      = bytes32 (tris.length % 4294967296) ++ tris.flatMap (writeTriangle normal) := by
    simp only [writeBinary, List.append_assoc]
    exact List.drop_left' (by simp)
  simp only [readBinary, hdrop, read32_bytes32, Nat.mod_mod, Nat.mod_eq_of_lt hN]
  have h := readRecords_write normal tris []
  simp only [List.append_nil] at h
  simp [h]

/-- C8: for every triangle list with fewer than `2^32` triangles, reading back
the bytes of the binary writer (skip 80 header bytes, little-endian `uint32`
count at bytes 80–83, then per triangle 12 bytes normal, 3 × 12 bytes vertices,
2 bytes attribute) succeeds and yields the count `tris.length` and, in the same
order, records whose vertices `v0, v1, v2` have the 32-bit patterns of `tris`
and whose attribute field is 0. -/
theorem stl_roundtrip (normal : Triangle Float32 → Vertex Float32)
    (tris : List (Triangle Float32)) (hN : tris.length < 4294967296) :
    ∃ rs : List StlRecord,
      readBinary (writeBinary normal tris) = some (tris.length, rs)
        ∧ rs.map (fun r => (⟨r.v0, r.v1, r.v2⟩ : Triangle Float32)) = tris
        ∧ ∀ r ∈ rs, r.attr = 0 := by
  refine ⟨tris.map (recordOf normal), readBinary_writeBinary normal tris hN, ?_, ?_⟩
  · rw [List.map_map]
    conv_rhs => rw [← List.map_id tris]
    apply List.map_congr_left
    intro t _
    rfl
  · intro r hr
    obtain ⟨t, -, rfl⟩ := List.mem_map.mp hr
    rfl

/-- Witness of `stl_roundtrip`: a list of one triangle. -/
theorem stl_roundtrip_witness :
    ∃ rs : List StlRecord,
      readBinary (writeBinary (fun t => t.v0) [⟨⟨1, 2, 3⟩, ⟨4, 5, 6⟩, ⟨7, 8, 9⟩⟩])
          = some ([(⟨⟨1, 2, 3⟩, ⟨4, 5, 6⟩, ⟨7, 8, 9⟩⟩ : Triangle Float32)].length, rs)
        ∧ rs.map (fun r => (⟨r.v0, r.v1, r.v2⟩ : Triangle Float32))
            = [⟨⟨1, 2, 3⟩, ⟨4, 5, 6⟩, ⟨7, 8, 9⟩⟩]
        ∧ ∀ r ∈ rs, r.attr = 0 :=
  stl_roundtrip (fun t => t.v0) [⟨⟨1, 2, 3⟩, ⟨4, 5, 6⟩, ⟨7, 8, 9⟩⟩] (by decide)

/-- C9: for every triangle list of length `N` the binary writer produces exactly
`84 + 50·N` bytes: an 80-byte header, a 4-byte count and 50 bytes per triangle. -/
theorem stl_file_size (normal : Triangle Float32 → Vertex Float32)
    (tris : List (Triangle Float32)) :
    (writeBinary normal tris).length = 84 + 50 * tris.length
      ∧ ((writeBinary normal tris).take 80).length = 80
      ∧ (((writeBinary normal tris).drop 80).take 4).length = 4
      ∧ ∀ t ∈ tris, (writeTriangle normal t).length = 50 := by
  have h := length_writeBinary normal tris
  refine ⟨h, ?_, ?_, fun t _ => length_writeTriangle normal t⟩
  · rw [List.length_take, h]; omega
  · rw [List.length_take, List.length_drop, h]; omega

/-! ## Signed volume -/

theorem sum_map_flatMap {α β : Type} (l : List α) (f : α → List β) (g : β → ℚ) :
    ((l.flatMap f).map g).sum = (l.map fun a => ((f a).map g).sum).sum := by
  induction l with
  | nil => simp
  | cons a l ih => simp [List.flatMap_cons, ih]

theorem sum_map_range (n : Nat) (f : Nat → ℚ) :
    ((List.range n).map f).sum = ∑ i ∈ Finset.range n, f i := by
  induction n with
  | zero => simp
  | succ n ih => rw [List.sum_range_succ, ih, Finset.sum_range_succ]

theorem sum_map_iota (n : Nat) (f : Nat → ℚ) :
    ((List.iota n).map f).sum = ∑ i ∈ Finset.range n, f (i + 1) := by
  induction n with
  | zero => simp
  | succ n ih =>
    rw [List.iota_succ, List.map_cons, List.sum_cons, ih, Finset.sum_range_succ, add_comm]

theorem signedVolume_eq (tris : List (Triangle ℚ)) :
    signedVolume tris = (tris.map tripleProduct).sum / 6 := by
  unfold signedVolume
  induction tris with
  | nil => simp
  | cons t tris ih => simp only [List.map_cons, List.sum_cons, ih]; ring

/-- Six times the volume of the two prisms between the rear plane and the two
front triangles of cell `(x, y)`, less the rear-plane offset. -/
theorem front_cell (Z : Nat → Nat → ℚ) (x y : Nat) :
    tripleProduct (placeTri Z ⟨⟨x, y, true⟩, ⟨x + 1, y, true⟩, ⟨x + 1, y + 1, true⟩⟩)
      + tripleProduct (placeTri Z ⟨⟨x, y, true⟩, ⟨x + 1, y + 1, true⟩, ⟨x, y + 1, true⟩⟩)
    = cellPrism Z x y
      + (wallX Z (x + 1) y - wallX Z x y) + (wallY Z x (y + 1) - wallY Z x y) := by
  simp [tripleProduct, placeTri, place, dot, cross, cellPrism, wallX, wallY]
  ring

theorem skirtQuad_triple (Z : Nat → Nat → ℚ) (px py qx qy : Nat) :
    ((skirtQuad px py qx qy).map fun t => tripleProduct (placeTri Z t)).sum
      = ((px : ℚ) * qy - (qx : ℚ) * py) * (Z px py + Z qx qy + 6) := by
  simp [skirtQuad, tripleProduct, placeTri, place, dot, cross, back]
  ring

theorem back_cell (Z : Nat → Nat → ℚ) (x y : Nat) :
    tripleProduct (placeTri Z ⟨⟨x, y, false⟩, ⟨x + 1, y + 1, false⟩, ⟨x + 1, y, false⟩⟩)
      + tripleProduct (placeTri Z ⟨⟨x, y, false⟩, ⟨x, y + 1, false⟩, ⟨x + 1, y + 1, false⟩⟩)
    = 6 := by
  simp [tripleProduct, placeTri, place, dot, cross, back]
  ring

theorem sum_frontNodes (W H : Nat) (Z : Nat → Nat → ℚ) :
    ((frontNodes W H).map fun t => tripleProduct (placeTri Z t)).sum
      = (∑ y ∈ Finset.range (H - 1), ∑ x ∈ Finset.range (W - 1), cellPrism Z x y)
        + (∑ y ∈ Finset.range (H - 1), wallX Z (W - 1) y)
        + (∑ x ∈ Finset.range (W - 1), wallY Z x (H - 1)) := by
  unfold frontNodes
  rw [sum_map_flatMap, sum_map_range]
  simp only [sum_map_flatMap, sum_map_range, List.map_cons, List.map_nil, List.sum_cons,
    List.sum_nil, add_zero, front_cell]
  have hX : ∀ y, ∑ x ∈ Finset.range (W - 1), (wallX Z (x + 1) y - wallX Z x y)
      = wallX Z (W - 1) y := by
    intro y
    rw [Finset.sum_range_sub (fun x => wallX Z x y) (W - 1)]
    simp [wallX]
  have hY : ∀ x, ∑ y ∈ Finset.range (H - 1), (wallY Z x (y + 1) - wallY Z x y)
      = wallY Z x (H - 1) := by
    intro x
    rw [Finset.sum_range_sub (fun y => wallY Z x y) (H - 1)]
    simp [wallY]
  have hY2 : ∑ y ∈ Finset.range (H - 1), ∑ x ∈ Finset.range (W - 1),
      (wallY Z x (y + 1) - wallY Z x y) = ∑ x ∈ Finset.range (W - 1), wallY Z x (H - 1) := by
    rw [Finset.sum_comm]
    exact Finset.sum_congr rfl fun x _ => hY x
  simp only [Finset.sum_add_distrib, hX, hY2]

theorem sum_bottomNodes (W : Nat) (Z : Nat → Nat → ℚ) :
    ((bottomNodes W).map fun t => tripleProduct (placeTri Z t)).sum = 0 := by
  unfold bottomNodes
  rw [sum_map_flatMap, sum_map_range]
  simp [skirtQuad_triple]

theorem sum_leftNodes (H : Nat) (Z : Nat → Nat → ℚ) :
    ((leftNodes H).map fun t => tripleProduct (placeTri Z t)).sum = 0 := by
  unfold leftNodes
  rw [sum_map_flatMap, sum_map_iota]
  simp [skirtQuad_triple]

theorem sum_rightNodes (W H : Nat) (Z : Nat → Nat → ℚ) :
    ((rightNodes W H).map fun t => tripleProduct (placeTri Z t)).sum
      = ∑ y ∈ Finset.range (H - 1), (6 * ((W - 1 : Nat) : ℚ) - wallX Z (W - 1) y) := by
  unfold rightNodes
  rw [sum_map_flatMap, sum_map_range]
  apply Finset.sum_congr rfl
  intro y _
  rw [skirtQuad_triple]
  simp only [wallX]
  push_cast
  ring

theorem sum_topNodes (W H : Nat) (Z : Nat → Nat → ℚ) :
    ((topNodes W H).map fun t => tripleProduct (placeTri Z t)).sum
      = ∑ x ∈ Finset.range (W - 1), (6 * ((H - 1 : Nat) : ℚ) - wallY Z x (H - 1)) := by
  unfold topNodes
  rw [sum_map_flatMap, sum_map_iota]
  apply Finset.sum_congr rfl
  intro x _
  rw [skirtQuad_triple]
  simp only [wallY, Nat.add_sub_cancel]
  push_cast
  ring

theorem sum_backNodes (W H : Nat) (Z : Nat → Nat → ℚ) :
    ((backNodes W H).map fun t => tripleProduct (placeTri Z t)).sum
      = 6 * (((W - 1 : Nat) : ℚ) * ((H - 1 : Nat) : ℚ)) := by
  unfold backNodes
  rw [sum_map_flatMap, sum_map_range]
  simp only [sum_map_flatMap, sum_map_range, List.map_cons, List.map_nil, List.sum_cons,
    List.sum_nil, add_zero, back_cell]
  simp
  ring

/-- Six times the signed volume: the prisms under the front surface measured
from `Z = 0`, plus the slab between `Z = -3` and `Z = 0`. -/
theorem sum_meshNodes (W H : Nat) (Z : Nat → Nat → ℚ) :
    ((meshNodes W H).map fun t => tripleProduct (placeTri Z t)).sum
      = (∑ y ∈ Finset.range (H - 1), ∑ x ∈ Finset.range (W - 1), cellPrism Z x y)
        + 18 * (((W - 1 : Nat) : ℚ) * ((H - 1 : Nat) : ℚ)) := by
  simp only [meshNodes, List.map_append, List.sum_append, sum_frontNodes, sum_bottomNodes,
    sum_rightNodes, sum_topNodes, sum_leftNodes, sum_backNodes, Finset.sum_sub_distrib,
    Finset.sum_const, Finset.card_range, nsmul_eq_mul]
  ring

theorem signedVolume_meshFor (W H : Nat) (depth : Nat → Nat) (mn mx : Nat) :
    signedVolume (meshFor W H depth mn mx)
      = ((∑ y ∈ Finset.range (H - 1), ∑ x ∈ Finset.range (W - 1),
            cellPrism (heightField W depth mn mx) x y)
          + 18 * (((W - 1 : Nat) : ℚ) * ((H - 1 : Nat) : ℚ))) / 6 := by
  rw [signedVolume_eq, meshFor_eq, List.map_map, ← sum_meshNodes]
  rfl

/-- C4: for every `W × H` frame with `W, H ≥ 2` and `minval < maxval`, the signed
volume of the emitted mesh, the sum over all emitted triangles of
`v0 · (v1 × v2) / 6`, is strictly positive. -/
theorem signed_volume_pos (W H : Nat) (depth : Nat → Nat) (hW : 2 ≤ W) (hH : 2 ≤ H)
    (hlt : (depthRange W H depth).1 < (depthRange W H depth).2) :
    0 < signedVolume (mainTris W H depth) := by
  have hv := signedVolume_meshFor W H depth (depthRange W H depth).1 (depthRange W H depth).2
  have hv' : signedVolume (mainTris W H depth) = _ := hv
  rw [hv']
  have hW1 : (1 : ℚ) ≤ ((W - 1 : Nat) : ℚ) := by
    have : 1 ≤ W - 1 := by omega
    exact_mod_cast this
  have hH1 : (1 : ℚ) ≤ ((H - 1 : Nat) : ℚ) := by
    have : 1 ≤ H - 1 := by omega
    exact_mod_cast this
  have hcells : 0 ≤ ∑ y ∈ Finset.range (H - 1), ∑ x ∈ Finset.range (W - 1),
      cellPrism (heightField W depth (depthRange W H depth).1 (depthRange W H depth).2) x y := by
    apply Finset.sum_nonneg
    intro y hy
    apply Finset.sum_nonneg
    intro x hx
    have hx' : x < W - 1 := Finset.mem_range.mp hx
    have hy' : y < H - 1 := Finset.mem_range.mp hy
    have h00 := heightField_nonneg W H depth x y (by omega) (by omega) hlt
    have h10 := heightField_nonneg W H depth (x + 1) y (by omega) (by omega) hlt
    have h11 := heightField_nonneg W H depth (x + 1) (y + 1) (by omega) (by omega) hlt
    have h01 := heightField_nonneg W H depth x (y + 1) (by omega) (by omega) hlt
    unfold cellPrism
    linarith
  have hslab : (1 : ℚ) ≤ ((W - 1 : Nat) : ℚ) * ((H - 1 : Nat) : ℚ) := by nlinarith
  apply div_pos _ (by norm_num)
  linarith

/-- Witness of `signed_volume_pos`: the two-level `2 × 2` frame. -/
theorem signed_volume_pos_witness :
    0 < signedVolume (mainTris 2 2 (fun i => [100, 200, 100, 200].getD i 0)) :=
  signed_volume_pos 2 2 (fun i => [100, 200, 100, 200].getD i 0)
    (by decide) (by decide) (by decide)

/-! ## Directed edges of the combinatorial mesh -/

theorem mem_grid (n m i j : Nat) : (i, j) ∈ grid n m ↔ i < n ∧ j < m := by
  simp only [grid, List.mem_flatMap, List.mem_range, List.mem_map, Prod.mk.injEq]
  constructor
  · rintro ⟨j', hj, i', hi, rfl, rfl⟩
    exact ⟨hi, hj⟩
  · rintro ⟨hi, hj⟩
    exact ⟨j, hj, i, hi, rfl, rfl⟩

theorem nodup_grid (n m : Nat) : (grid n m).Nodup := by
  unfold grid
  rw [List.nodup_flatMap]
  constructor
  · intro j _
    apply List.Nodup.map _ (List.nodup_range n)
    intro i i' h
    simpa using h
  · have h := List.pairwise_lt_range m
    refine h.imp ?_
    intro j j' hlt
    simp only [Function.onFun, List.Disjoint, List.mem_map, List.mem_range]
    rintro ⟨a, b⟩ ⟨i, _, h1⟩ ⟨i', _, h2⟩
    simp only [Prod.mk.injEq] at h1 h2
    omega

theorem edgeAt_injective (a1 b1 : Nat) (f1 : Bool) (a2 b2 : Nat) (f2 : Bool) :
    Function.Injective (edgeAt a1 b1 f1 a2 b2 f2) := by
  rintro ⟨i, j⟩ ⟨i', j'⟩ h
  simp only [edgeAt, Edge.mk.injEq, Node.mk.injEq] at h
  ext <;> simp <;> omega

/-- Closed form of the number of occurrences of `e` in one family of edges. -/
theorem count_family (n m a1 b1 : Nat) (f1 : Bool) (a2 b2 : Nat) (f2 : Bool)
    (e : Edge Node) :
    List.count e ((grid n m).map (edgeAt a1 b1 f1 a2 b2 f2))
      = famCount n m a1 b1 f1 a2 b2 f2 e := by
  have hnd : ((grid n m).map (edgeAt a1 b1 f1 a2 b2 f2)).Nodup :=
    List.Nodup.map (edgeAt_injective a1 b1 f1 a2 b2 f2) (nodup_grid n m)
  rw [List.count_eq_of_nodup hnd, famCount]
  congr 1
  apply propext
  simp only [List.mem_map]
  constructor
  · rintro ⟨⟨i, j⟩, hc, rfl⟩
    obtain ⟨hi, hj⟩ := (mem_grid n m i j).mp hc
    simp only [edgeAt]
    exact ⟨by omega, by omega, by omega, by omega, trivial, by omega, by omega, trivial⟩
  · obtain ⟨⟨x1, y1, g1⟩, ⟨x2, y2, g2⟩⟩ := e
    rintro ⟨h1, h2, h3, h4, h5, h6, h7, h8⟩
    simp only at h1 h2 h3 h4 h5 h6 h7 h8
    refine ⟨(x1 - a1, y1 - b1), (mem_grid _ _ _ _).mpr ⟨by omega, by omega⟩, ?_⟩
    simp only [edgeAt, Edge.mk.injEq, Node.mk.injEq]
    exact ⟨⟨by omega, by omega, h5.symm⟩, ⟨by omega, by omega, h8.symm⟩⟩

theorem count_flatMap6 {α β : Type} [DecidableEq β] (l : List α) (g1 g2 g3 g4 g5 g6 : α → β)
    (e : β) :
    List.count e (l.flatMap fun c => [g1 c, g2 c, g3 c, g4 c, g5 c, g6 c])
      = List.count e (l.map g1) + List.count e (l.map g2) + List.count e (l.map g3)
        + List.count e (l.map g4) + List.count e (l.map g5) + List.count e (l.map g6) := by
  induction l with
  | nil => simp
  | cons a l ih =>
    simp only [List.flatMap_cons, List.count_append, List.map_cons, List.count_cons, ih,
      List.count_nil]
    omega

theorem count_flatMap_iota {β : Type} [DecidableEq β] (n : Nat) (f : Nat → List β) (e : β) :
    List.count e ((List.iota n).flatMap f)
      = List.count e ((List.range n).flatMap fun i => f (i + 1)) := by
  induction n with
  | zero => simp
  | succ n ih =>
    rw [List.iota_succ, List.flatMap_cons, List.count_append, ih, List.range_succ,
      List.flatMap_append, List.count_append]
    simp only [List.flatMap_cons, List.flatMap_nil, List.append_nil]
    omega

theorem grid_flatMap {β : Type} (n m : Nat) (F : Nat × Nat → List β) :
    (grid n m).flatMap F
      = (List.range m).flatMap fun j => (List.range n).flatMap fun i => F (i, j) := by
  simp [grid, List.flatMap_assoc, List.flatMap_map]

theorem grid_row {β : Type} (n : Nat) (F : Nat × Nat → List β) :
    (grid n 1).flatMap F = (List.range n).flatMap fun i => F (i, 0) := by
  simp [grid_flatMap, List.range_succ]

theorem grid_col {β : Type} (m : Nat) (F : Nat × Nat → List β) :
    (grid 1 m).flatMap F = (List.range m).flatMap fun j => F (0, j) := by
  simp [grid_flatMap, List.range_succ]

theorem count_frontNodes (W H : Nat) (e : Edge Node) :
    List.count e ((frontNodes W H).flatMap NodeTri.edges) = frontCount W H e := by
  have h : (frontNodes W H).flatMap NodeTri.edges
      = (grid (W - 1) (H - 1)).flatMap fun c =>
          [edgeAt 0 0 true 1 0 true c, edgeAt 1 0 true 1 1 true c, edgeAt 1 1 true 0 0 true c,
           edgeAt 0 0 true 1 1 true c, edgeAt 1 1 true 0 1 true c, edgeAt 0 1 true 0 0 true c] := by
    simp [frontNodes, grid_flatMap, List.flatMap_assoc, NodeTri.edges, edgeAt]
  rw [h, count_flatMap6]
  simp only [count_family, frontCount]

theorem count_backNodes (W H : Nat) (e : Edge Node) :
    List.count e ((backNodes W H).flatMap NodeTri.edges) = backCount W H e := by
  have h : (backNodes W H).flatMap NodeTri.edges
      = (grid (W - 1) (H - 1)).flatMap fun c =>
          [edgeAt 0 0 false 1 1 false c, edgeAt 1 1 false 1 0 false c,
           edgeAt 1 0 false 0 0 false c, edgeAt 0 0 false 0 1 false c,
           edgeAt 0 1 false 1 1 false c, edgeAt 1 1 false 0 0 false c] := by
    simp [backNodes, grid_flatMap, List.flatMap_assoc, NodeTri.edges, edgeAt]
  rw [h, count_flatMap6]
  simp only [count_family, backCount]

/-- Edge count of a strip of skirt quads laid out on a grid of cells. -/
theorem count_skirt (n m px py qx qy : Nat) (e : Edge Node) :
    List.count e ((grid n m).flatMap fun c =>
        (skirtQuad (c.1 + px) (c.2 + py) (c.1 + qx) (c.2 + qy)).flatMap NodeTri.edges)
      = skirtCount n m px py qx qy e := by
  have h : ((grid n m).flatMap fun c =>
        (skirtQuad (c.1 + px) (c.2 + py) (c.1 + qx) (c.2 + qy)).flatMap NodeTri.edges)
      = (grid n m).flatMap fun c =>
          [edgeAt px py false qx qy false c, edgeAt qx qy false qx qy true c,
           edgeAt qx qy true px py false c, edgeAt px py false qx qy true c,
           edgeAt qx qy true px py true c, edgeAt px py true px py false c] := by
    simp [skirtQuad, NodeTri.edges, edgeAt]
  rw [h, count_flatMap6]
  simp only [count_family, skirtCount]

theorem count_bottomNodes (W : Nat) (e : Edge Node) :
    List.count e ((bottomNodes W).flatMap NodeTri.edges) = skirtCount (W - 1) 1 0 0 1 0 e := by
  rw [← count_skirt, grid_row]
  simp [bottomNodes, List.flatMap_assoc]

theorem count_rightNodes (W H : Nat) (e : Edge Node) :
    List.count e ((rightNodes W H).flatMap NodeTri.edges)
      = skirtCount 1 (H - 1) (W - 1) 0 (W - 1) 1 e := by
  rw [← count_skirt, grid_col]
  simp [rightNodes, List.flatMap_assoc]

theorem count_topNodes (W H : Nat) (e : Edge Node) :
    List.count e ((topNodes W H).flatMap NodeTri.edges)
      = skirtCount (W - 1) 1 1 (H - 1) 0 (H - 1) e := by
  rw [← count_skirt, grid_row]
  simp only [topNodes, List.flatMap_assoc, count_flatMap_iota]
  simp

theorem count_leftNodes (H : Nat) (e : Edge Node) :
    List.count e ((leftNodes H).flatMap NodeTri.edges) = skirtCount 1 (H - 1) 0 1 0 0 e := by
  rw [← count_skirt, grid_col]
  simp only [leftNodes, List.flatMap_assoc, count_flatMap_iota]
  simp

/-- Number of occurrences of a directed edge in the whole mesh, in closed form. -/
theorem count_meshNodes (W H : Nat) (e : Edge Node) :
    List.count e ((meshNodes W H).flatMap NodeTri.edges) = meshCount W H e := by
  simp only [meshNodes, List.flatMap_append, List.count_append, count_frontNodes,
    count_bottomNodes, count_rightNodes, count_topNodes, count_leftNodes, count_backNodes,
    meshCount]

theorem ind_pos (c : Prop) [Decidable c] : 0 < (if c then 1 else 0) ↔ c := by
  by_cases h : c <;> simp [h]

set_option maxHeartbeats 4000000 in
/-- Every directed edge that occurs in the mesh occurs exactly once, and so does
its reverse. -/
theorem meshCount_closed (W H : Nat) (hW : 2 ≤ W) (hH : 2 ≤ H) (e : Edge Node)
    (he : 0 < meshCount W H e) :
    meshCount W H e = 1 ∧ meshCount W H e.rev = 1 := by
  obtain ⟨⟨x1, y1, f1⟩, ⟨x2, y2, f2⟩⟩ := e
  cases f1 <;> cases f2 <;>
    simp only [meshCount, frontCount, backCount, skirtCount, famCount, Edge.rev,
      Bool.false_eq_true, Bool.true_eq_false, and_false, false_and, if_false, ite_false,
      and_true, true_and, add_zero, zero_add, reduceCtorEq] at he ⊢ <;>
    simp only [Nat.add_pos_iff_pos_or_pos, ind_pos] at he <;>
    casesm* _ ∨ _ <;>
    (constructor <;> simp (disch := omega) only [if_pos, if_neg] <;>
      (try split_ifs) <;> omega)

theorem node_edges_paired (W H : Nat) (hW : 2 ≤ W) (hH : 2 ≤ H) (e : Edge Node)
    (he : e ∈ (meshNodes W H).flatMap NodeTri.edges) :
    List.count e ((meshNodes W H).flatMap NodeTri.edges) = 1
      ∧ List.count e.rev ((meshNodes W H).flatMap NodeTri.edges) = 1 := by
  rw [count_meshNodes, count_meshNodes]
  apply meshCount_closed W H hW hH
  rw [← count_meshNodes]
  exact List.count_pos_iff.mpr he

/-- Per triangle: an undirected side `{p, q}` is counted once, by the one
direction in which the winding traverses it. -/
theorem tri_side_count (t : NodeTri) (p q : Node) (hab : t.a ≠ t.b) (hbc : t.b ≠ t.c)
    (hca : t.c ≠ t.a) :
    (if (⟨p, q⟩ : Edge Node) ∈ t.edges ∨ (⟨q, p⟩ : Edge Node) ∈ t.edges then 1 else 0)
      = List.count ⟨p, q⟩ t.edges + List.count ⟨q, p⟩ t.edges := by
  obtain ⟨a, b, c⟩ := t
  simp only at hab hbc hca
  simp only [NodeTri.edges, List.mem_cons, List.mem_singleton, List.not_mem_nil, or_false,
    Edge.mk.injEq, List.count_cons, List.count_nil, beq_iff_eq, zero_add]
  by_cases h1 : p = a <;> by_cases h2 : p = b <;> by_cases h3 : p = c <;>
    by_cases h4 : q = a <;> by_cases h5 : q = b <;> by_cases h6 : q = c <;>
    simp_all [eq_comm]

theorem countP_sides (l : List NodeTri) (p q : Node)
    (hl : ∀ t ∈ l, t.a ≠ t.b ∧ t.b ≠ t.c ∧ t.c ≠ t.a) :
    l.countP (fun t => decide ((⟨p, q⟩ : Edge Node) ∈ t.edges ∨ (⟨q, p⟩ : Edge Node) ∈ t.edges))
      = List.count ⟨p, q⟩ (l.flatMap NodeTri.edges)
        + List.count ⟨q, p⟩ (l.flatMap NodeTri.edges) := by
  induction l with
  | nil => simp
  | cons t l ih =>
    have ht := hl t (List.mem_cons_self _ _)
    have ih' := ih fun t' ht' => hl t' (List.mem_cons_of_mem _ ht')
    have h := tri_side_count t p q ht.1 ht.2.1 ht.2.2
    simp only [List.countP_cons, List.flatMap_cons, List.count_append, ih', decide_eq_true_eq]
    omega

/-! ## Watertightness -/

/-- On the pixels of the frame, distinct nodes have distinct positions: front
vertices have `Z ≥ 0`, rear vertices have `Z = -3`. -/
theorem place_eq_iff (W H : Nat) (Z : Nat → Nat → ℚ)
    (hZ : ∀ x y, x < W → y < H → 0 ≤ Z x y) (p q : Node)
    (hp : p.x < W ∧ p.y < H) (hq : q.x < W ∧ q.y < H) :
    place Z p = place Z q ↔ p = q := by
  constructor
  · obtain ⟨px, py, pf⟩ := p
    obtain ⟨qx, qy, qf⟩ := q
    intro h
    simp only [place, Vertex.mk.injEq, Nat.cast_inj] at h
    obtain ⟨hx, hy, hz⟩ := h
    subst hx hy
    have h0 := hZ px py hp.1 hp.2
    cases pf <;> cases qf <;> simp [back] at hz ⊢ <;> linarith
  · rintro rfl
    rfl

/-- Every triangle of the combinatorial mesh has its corners on pixels of the
frame, and its three corners are distinct. -/
theorem meshNodes_wf (W H : Nat) (hW : 1 ≤ W) (hH : 1 ≤ H) (t : NodeTri)
    (ht : t ∈ meshNodes W H) :
    (t.a.x < W ∧ t.a.y < H) ∧ (t.b.x < W ∧ t.b.y < H) ∧ (t.c.x < W ∧ t.c.y < H)
      ∧ t.a ≠ t.b ∧ t.b ≠ t.c ∧ t.c ≠ t.a := by
  simp only [meshNodes, frontNodes, bottomNodes, rightNodes, topNodes, leftNodes, backNodes,
    skirtQuad, List.mem_append, List.mem_flatMap, List.mem_range, List.mem_iota,
    List.mem_cons, List.mem_singleton, List.not_mem_nil, or_false] at ht
  rcases ht with ((((⟨y, hy, x, hx, rfl | rfl⟩ | ⟨x, hx, rfl | rfl⟩) | ⟨y, hy, rfl | rfl⟩)
    | ⟨x, hx, rfl | rfl⟩) | ⟨y, hy, rfl | rfl⟩) | ⟨y, hy, x, hx, rfl | rfl⟩ <;>
    simp only [ne_eq, Node.mk.injEq, not_and, and_true, true_and, Bool.true_eq_false,
      Bool.false_eq_true, not_false_eq_true, implies_true, and_self] <;>
    omega

theorem hasEdge_placeTri (W H : Nat) (Z : Nat → Nat → ℚ)
    (hZ : ∀ x y, x < W → y < H → 0 ≤ Z x y) (t : NodeTri) (p q : Node)
    (ha : t.a.x < W ∧ t.a.y < H) (hb : t.b.x < W ∧ t.b.y < H) (hc : t.c.x < W ∧ t.c.y < H)
    (hp : p.x < W ∧ p.y < H) (hq : q.x < W ∧ q.y < H) :
    hasEdge (placeTri Z t) (place Z p) (place Z q)
      = decide ((⟨p, q⟩ : Edge Node) ∈ t.edges ∨ (⟨q, p⟩ : Edge Node) ∈ t.edges) := by
  have e := place_eq_iff W H Z hZ
  simp only [hasEdge, Triangle.edges, placeTri, NodeTri.edges, List.mem_cons,
    List.mem_singleton, List.not_mem_nil, or_false, Edge.mk.injEq,
    e p t.a hp ha, e p t.b hp hb, e p t.c hp hc, e q t.a hq ha, e q t.b hq hb, e q t.c hq hc]

/-- A side of a placed triangle joins the positions of two of its corner nodes. -/
theorem nodes_of_hasEdge (Z : Nat → Nat → ℚ) (t : NodeTri) (a b : Vertex ℚ)
    (h : hasEdge (placeTri Z t) a b = true) :
    ∃ p q : Node, (p = t.a ∨ p = t.b ∨ p = t.c) ∧ (q = t.a ∨ q = t.b ∨ q = t.c)
      ∧ a = place Z p ∧ b = place Z q
      ∧ ((⟨p, q⟩ : Edge Node) ∈ t.edges ∨ (⟨q, p⟩ : Edge Node) ∈ t.edges) := by
  simp only [hasEdge, Triangle.edges, placeTri, List.mem_cons, List.mem_singleton,
    List.not_mem_nil, or_false, Edge.mk.injEq, decide_eq_true_eq] at h
  rcases h with (⟨rfl, rfl⟩ | ⟨rfl, rfl⟩ | ⟨rfl, rfl⟩) | (⟨rfl, rfl⟩ | ⟨rfl, rfl⟩ | ⟨rfl, rfl⟩)
  · exact ⟨t.a, t.b, by simp, by simp, rfl, rfl, by simp [NodeTri.edges]⟩
  · exact ⟨t.b, t.c, by simp, by simp, rfl, rfl, by simp [NodeTri.edges]⟩
  · exact ⟨t.c, t.a, by simp, by simp, rfl, rfl, by simp [NodeTri.edges]⟩
  · exact ⟨t.b, t.a, by simp, by simp, rfl, rfl, by simp [NodeTri.edges]⟩
  · exact ⟨t.c, t.b, by simp, by simp, rfl, rfl, by simp [NodeTri.edges]⟩
  · exact ⟨t.a, t.c, by simp, by simp, rfl, rfl, by simp [NodeTri.edges]⟩

/-- In the mesh placed over a height field that is non-negative on the frame, an
undirected edge that is a side of some triangle is a side of exactly two. -/
theorem two_triangles_per_edge (W H : Nat) (hW : 2 ≤ W) (hH : 2 ≤ H) (Z : Nat → Nat → ℚ)
    (hZ : ∀ x y, x < W → y < H → 0 ≤ Z x y) (a b : Vertex ℚ)
    (h : ∃ t ∈ (meshNodes W H).map (placeTri Z), hasEdge t a b = true) :
    (((meshNodes W H).map (placeTri Z)).filter fun t => hasEdge t a b).length = 2 := by
  obtain ⟨t, ht, hab⟩ := h
  obtain ⟨nt, hnt, rfl⟩ := List.mem_map.mp ht
  obtain ⟨p, q, hp, hq, rfl, rfl, hpq⟩ := nodes_of_hasEdge Z nt a b hab
  have wf := meshNodes_wf W H (by omega) (by omega)
  have wnt := wf nt hnt
  have hpF : p.x < W ∧ p.y < H := by
    rcases hp with rfl | rfl | rfl
    · exact wnt.1
    · exact wnt.2.1
    · exact wnt.2.2.1
  have hqF : q.x < W ∧ q.y < H := by
    rcases hq with rfl | rfl | rfl
    · exact wnt.1
    · exact wnt.2.1
    · exact wnt.2.2.1
  rw [← List.countP_eq_length_filter, List.countP_map]
  have hcongr : (meshNodes W H).countP ((fun t => hasEdge t (place Z p) (place Z q)) ∘ placeTri Z)
      = (meshNodes W H).countP (fun t =>
          decide ((⟨p, q⟩ : Edge Node) ∈ t.edges ∨ (⟨q, p⟩ : Edge Node) ∈ t.edges)) := by
    apply List.countP_congr
    intro t' ht'
    have w' := wf t' ht'
    simp only [Function.comp_apply,
      hasEdge_placeTri W H Z hZ t' p q w'.1 w'.2.1 w'.2.2.1 hpF hqF]
  rw [hcongr, countP_sides _ p q fun t' ht' => (wf t' ht').2.2.2]
  rcases hpq with hpq | hpq
  · have hc := node_edges_paired W H hW hH ⟨p, q⟩
      (List.mem_flatMap.mpr ⟨nt, hnt, hpq⟩)
    simp only [Edge.rev] at hc
    omega
  · have hc := node_edges_paired W H hW hH ⟨q, p⟩
      (List.mem_flatMap.mpr ⟨nt, hnt, hpq⟩)
    simp only [Edge.rev] at hc
    omega

/-- C3 (watertightness): for every `W × H` frame with `W, H ≥ 2` and
`minval < maxval`, every undirected edge `{a, b}` of distinct vertex positions
that are consecutive corners of some emitted triangle is a side of exactly two
triangles of the whole emitted list. -/
theorem watertight (W H : Nat) (depth : Nat → Nat) (hW : 2 ≤ W) (hH : 2 ≤ H)
    (hlt : (depthRange W H depth).1 < (depthRange W H depth).2)
    (a b : Vertex ℚ) (_hab : a ≠ b)
    (hside : ∃ t ∈ mainTris W H depth, hasEdge t a b = true) :
    ((mainTris W H depth).filter fun t => hasEdge t a b).length = 2 := by
  have hm : mainTris W H depth = (meshNodes W H).map
      (placeTri (heightField W depth (depthRange W H depth).1 (depthRange W H depth).2)) :=
    meshFor_eq W H depth _ _
  rw [hm] at hside ⊢
  exact two_triangles_per_edge W H hW hH _
    (fun x y hx hy => heightField_nonneg W H depth x y hx hy hlt) a b hside

theorem mem_mainTris_of_back {W H : Nat} {depth : Nat → Nat} {t : Triangle ℚ}
    (h : t ∈ backPanel W H) : t ∈ mainTris W H depth := by
  unfold mainTris meshFor
  simp only [List.mem_append]
  exact Or.inr h

/-- Witness of `watertight`: the diagonal `(0,0,-3) — (1,1,-3)` of the rear cap of
the two-level `2 × 2` frame. -/
theorem watertight_witness :
    ((mainTris 2 2 (fun i => [100, 200, 100, 200].getD i 0)).filter
      fun t => hasEdge t ⟨0, 0, -3⟩ ⟨1, 1, -3⟩).length = 2 :=
  watertight 2 2 (fun i => [100, 200, 100, 200].getD i 0) (by decide) (by decide)
    (by decide) ⟨0, 0, -3⟩ ⟨1, 1, -3⟩ (by simp)
    ⟨⟨⟨0, 0, -3⟩, ⟨1, 1, -3⟩, ⟨1, 0, -3⟩⟩,
      mem_mainTris_of_back (by norm_num [backPanel, back]),
      by simp [hasEdge, Triangle.edges]⟩

/-! ## Skirt orientation, degenerate triangles, cross product, bounding box -/

/-- Winding normal of the two triangles of a skirt quad: the height above the
rear plane times the ground edge turned by a quarter turn. -/
theorem skirtQuad_normal (Z : Nat → Nat → ℚ) (px py qx qy : Nat)
    (t : NodeTri) (ht : t ∈ skirtQuad px py qx qy) :
    ∃ k : ℚ, (k = Z qx qy + 3 ∨ k = Z px py + 3) ∧
      normalDir (placeTri Z t)
        = ⟨k * ((qy : ℚ) - py), -(k * ((qx : ℚ) - px)), 0⟩ := by
  simp only [skirtQuad, List.mem_cons, List.mem_singleton, List.not_mem_nil, or_false] at ht
  rcases ht with rfl | rfl
  · refine ⟨Z qx qy + 3, Or.inl rfl, ?_⟩
    simp only [placeTri, place, normalDir, cross, Vertex.sub, back, Vertex.mk.injEq,
      Bool.false_eq_true, if_false, if_true]
    refine ⟨?_, ?_, ?_⟩ <;> ring
  · refine ⟨Z px py + 3, Or.inr rfl, ?_⟩
    simp only [placeTri, place, normalDir, cross, Vertex.sub, back, Vertex.mk.injEq,
      Bool.false_eq_true, if_false, if_true]
    refine ⟨?_, ?_, ?_⟩ <;> ring

theorem bottom_normal (W H : Nat) (Z : Nat → Nat → ℚ) (hH : 1 ≤ H)
    (hZ : ∀ x y, x < W → y < H → 0 ≤ Z x y) (t : NodeTri) (ht : t ∈ bottomNodes W) :
    ∃ k : ℚ, 0 < k ∧ normalDir (placeTri Z t) = ⟨0, -k, 0⟩ := by
  simp only [bottomNodes, List.mem_flatMap, List.mem_range] at ht
  obtain ⟨x, hx, ht⟩ := ht
  obtain ⟨k, hk, he⟩ := skirtQuad_normal Z _ _ _ _ t ht
  refine ⟨k, ?_, ?_⟩
  · rcases hk with rfl | rfl
    · have := hZ (x + 1) 0 (by omega) (by omega); linarith
    · have := hZ x 0 (by omega) (by omega); linarith
  · rw [he]; simp

theorem right_normal (W H : Nat) (Z : Nat → Nat → ℚ) (hW : 1 ≤ W)
    (hZ : ∀ x y, x < W → y < H → 0 ≤ Z x y) (t : NodeTri) (ht : t ∈ rightNodes W H) :
    ∃ k : ℚ, 0 < k ∧ normalDir (placeTri Z t) = ⟨k, 0, 0⟩ := by
  simp only [rightNodes, List.mem_flatMap, List.mem_range] at ht
  obtain ⟨y, hy, ht⟩ := ht
  obtain ⟨k, hk, he⟩ := skirtQuad_normal Z _ _ _ _ t ht
  refine ⟨k, ?_, ?_⟩
  · rcases hk with rfl | rfl
    · have := hZ (W - 1) (y + 1) (by omega) (by omega); linarith
    · have := hZ (W - 1) y (by omega) (by omega); linarith
  · rw [he]; simp

theorem top_normal (W H : Nat) (Z : Nat → Nat → ℚ) (hH : 1 ≤ H)
    (hZ : ∀ x y, x < W → y < H → 0 ≤ Z x y) (t : NodeTri) (ht : t ∈ topNodes W H) :
    ∃ k : ℚ, 0 < k ∧ normalDir (placeTri Z t) = ⟨0, k, 0⟩ := by
  simp only [topNodes, List.mem_flatMap, List.mem_iota] at ht
  obtain ⟨x, hx, ht⟩ := ht
  obtain ⟨k, hk, he⟩ := skirtQuad_normal Z _ _ _ _ t ht
  refine ⟨k, ?_, ?_⟩
  · rcases hk with rfl | rfl
    · have := hZ (x - 1) (H - 1) (by omega) (by omega); linarith
    · have := hZ x (H - 1) (by omega) (by omega); linarith
  · rw [he]
    have hx1 : ((x - 1 : Nat) : ℚ) = (x : ℚ) - 1 := Nat.cast_pred hx.1
    simp [hx1]

theorem left_normal (W H : Nat) (Z : Nat → Nat → ℚ) (hW : 1 ≤ W)
    (hZ : ∀ x y, x < W → y < H → 0 ≤ Z x y) (t : NodeTri) (ht : t ∈ leftNodes H) :
    ∃ k : ℚ, 0 < k ∧ normalDir (placeTri Z t) = ⟨-k, 0, 0⟩ := by
  simp only [leftNodes, List.mem_flatMap, List.mem_iota] at ht
  obtain ⟨y, hy, ht⟩ := ht
  obtain ⟨k, hk, he⟩ := skirtQuad_normal Z _ _ _ _ t ht
  refine ⟨k, ?_, ?_⟩
  · rcases hk with rfl | rfl
    · have := hZ 0 (y - 1) (by omega) (by omega); linarith
    · have := hZ 0 y (by omega) (by omega); linarith
  · rw [he]
    have hy1 : ((y - 1 : Nat) : ℚ) = (y : ℚ) - 1 := Nat.cast_pred hy.1
    simp [hy1]

theorem front_normal_z {W H : Nat} {depth : Nat → Nat} {mn mx : Nat} {t : Triangle ℚ}
    (ht : t ∈ frontPanel W H depth mn mx) : (normalDir t).z = 1 := by
  obtain ⟨x, y, -, -, rfl | rfl⟩ := mem_frontPanel.mp ht <;>
    norm_num [normalDir, cross, Vertex.sub]

theorem back_normal {W H : Nat} {t : Triangle ℚ} (ht : t ∈ backPanel W H) :
    normalDir t = ⟨0, 0, -1⟩ := by
  obtain ⟨x, y, -, -, rfl | rfl⟩ := mem_backPanel ht <;>
    norm_num [normalDir, cross, Vertex.sub, back]

/-- Membership in the emitted list, panel by panel. -/
theorem mem_meshFor {W H : Nat} {depth : Nat → Nat} {mn mx : Nat} {t : Triangle ℚ} :
    t ∈ meshFor W H depth mn mx ↔
      t ∈ frontPanel W H depth mn mx ∨ t ∈ bottomPanel W depth mn mx
        ∨ t ∈ rightPanel W H depth mn mx ∨ t ∈ topPanel W H depth mn mx
        ∨ t ∈ leftPanel W H depth mn mx ∨ t ∈ backPanel W H := by
  simp only [meshFor, List.mem_append, or_assoc]

/-- In the two-level `2 × 2` frame the first bottom triangle is
`((0,0,-3), (1,0,-3), (1,0,0))`. -/
theorem sample_bottom_mem :
    (⟨⟨0, 0, -3⟩, ⟨1, 0, -3⟩, ⟨1, 0, 0⟩⟩ : Triangle ℚ)
      ∈ bottomPanel 2 (fun i => [100, 200, 100, 200].getD i 0)
        (depthRange 2 2 (fun i => [100, 200, 100, 200].getD i 0)).1
        (depthRange 2 2 (fun i => [100, 200, 100, 200].getD i 0)).2 := by
  have hr : depthRange 2 2 (fun i => [100, 200, 100, 200].getD i 0) = (100, 200) := by
    decide
  rw [hr]
  norm_num [bottomPanel, getDistanceAt, back]

theorem sample_bottom_mem_main :
    (⟨⟨0, 0, -3⟩, ⟨1, 0, -3⟩, ⟨1, 0, 0⟩⟩ : Triangle ℚ)
      ∈ mainTris 2 2 (fun i => [100, 200, 100, 200].getD i 0) := by
  unfold mainTris
  exact mem_meshFor.mpr (Or.inr (Or.inl sample_bottom_mem))

/-- C15: for every `W × H` frame with `W, H ≥ 2` and `minval < maxval`, the
winding normal `(v1 - v0) × (v2 - v0)` of every skirt triangle is a strictly
positive multiple `k` of the outward axis of its side: `(0, -1, 0)` for the
bottom skirt, `(1, 0, 0)` for the right skirt, `(0, 1, 0)` for the top skirt and
`(-1, 0, 0)` for the left skirt. -/
theorem skirt_orientation (W H : Nat) (depth : Nat → Nat) (hW : 2 ≤ W) (hH : 2 ≤ H)
    (hlt : (depthRange W H depth).1 < (depthRange W H depth).2) :
    (∀ t ∈ bottomPanel W depth (depthRange W H depth).1 (depthRange W H depth).2,
        ∃ k : ℚ, 0 < k ∧ normalDir t = ⟨0, -k, 0⟩)
      ∧ (∀ t ∈ rightPanel W H depth (depthRange W H depth).1 (depthRange W H depth).2,
        ∃ k : ℚ, 0 < k ∧ normalDir t = ⟨k, 0, 0⟩)
      ∧ (∀ t ∈ topPanel W H depth (depthRange W H depth).1 (depthRange W H depth).2,
        ∃ k : ℚ, 0 < k ∧ normalDir t = ⟨0, k, 0⟩)
      ∧ (∀ t ∈ leftPanel W H depth (depthRange W H depth).1 (depthRange W H depth).2,
        ∃ k : ℚ, 0 < k ∧ normalDir t = ⟨-k, 0, 0⟩) := by
  have hZ := fun x y hx hy => heightField_nonneg W H depth x y hx hy hlt
  refine ⟨?_, ?_, ?_, ?_⟩
  · intro t ht
    rw [bottomPanel_eq] at ht
    obtain ⟨nt, hnt, rfl⟩ := List.mem_map.mp ht
    exact bottom_normal W H _ (by omega) hZ nt hnt
  · intro t ht
    rw [rightPanel_eq] at ht
    obtain ⟨nt, hnt, rfl⟩ := List.mem_map.mp ht
    exact right_normal W H _ (by omega) hZ nt hnt
  · intro t ht
    rw [topPanel_eq] at ht
    obtain ⟨nt, hnt, rfl⟩ := List.mem_map.mp ht
    exact top_normal W H _ (by omega) hZ nt hnt
  · intro t ht
    rw [leftPanel_eq] at ht
    obtain ⟨nt, hnt, rfl⟩ := List.mem_map.mp ht
    exact left_normal W H _ (by omega) hZ nt hnt

/-- Witness of `skirt_orientation`: the first bottom triangle of the two-level
`2 × 2` frame. -/
theorem skirt_orientation_witness :
    ∃ k : ℚ, 0 < k ∧ normalDir ⟨⟨0, 0, -3⟩, ⟨1, 0, -3⟩, ⟨1, 0, 0⟩⟩ = ⟨0, -k, 0⟩ :=
  (skirt_orientation 2 2 (fun i => [100, 200, 100, 200].getD i 0)
    (by decide) (by decide) (by decide)).1 _ sample_bottom_mem

theorem normalizedLen_pos_iff (a : Vertex ℚ) : 0 < normalizedLen a ↔ a ≠ ⟨0, 0, 0⟩ := by
  obtain ⟨x, y, z⟩ := a
  simp only [normalizedLen, ne_eq, Vertex.mk.injEq]
  constructor
  · rintro h ⟨rfl, rfl, rfl⟩
    simp at h
  · intro h
    by_contra hle
    have hx : x = 0 := by nlinarith [mul_self_nonneg x, mul_self_nonneg y, mul_self_nonneg z]
    have hy : y = 0 := by nlinarith [mul_self_nonneg x, mul_self_nonneg y, mul_self_nonneg z]
    have hz : z = 0 := by nlinarith [mul_self_nonneg x, mul_self_nonneg y, mul_self_nonneg z]
    exact h ⟨hx, hy, hz⟩

/-- The winding normal of every emitted triangle is non-zero. -/
theorem normalDir_ne_zero (W H : Nat) (depth : Nat → Nat) (hW : 2 ≤ W) (hH : 2 ≤ H)
    (hlt : (depthRange W H depth).1 < (depthRange W H depth).2) (t : Triangle ℚ)
    (ht : t ∈ meshFor W H depth (depthRange W H depth).1 (depthRange W H depth).2) :
    normalDir t ≠ ⟨0, 0, 0⟩ := by
  have hZ := fun x y hx hy => heightField_nonneg W H depth x y hx hy hlt
  rcases mem_meshFor.mp ht with h | h | h | h | h | h
  · intro h0
    have := front_normal_z h
    rw [h0] at this
    norm_num at this
  · rw [bottomPanel_eq] at h
    obtain ⟨nt, hnt, rfl⟩ := List.mem_map.mp h
    obtain ⟨k, hk, he⟩ := bottom_normal W H _ (by omega) hZ nt hnt
    rw [he]
    simp only [ne_eq, Vertex.mk.injEq, not_and]
    intro _ h2
    linarith
  · rw [rightPanel_eq] at h
    obtain ⟨nt, hnt, rfl⟩ := List.mem_map.mp h
    obtain ⟨k, hk, he⟩ := right_normal W H _ (by omega) hZ nt hnt
    rw [he]
    simp only [ne_eq, Vertex.mk.injEq, not_and]
    intro h1
    linarith
  · rw [topPanel_eq] at h
    obtain ⟨nt, hnt, rfl⟩ := List.mem_map.mp h
    obtain ⟨k, hk, he⟩ := top_normal W H _ (by omega) hZ nt hnt
    rw [he]
    simp only [ne_eq, Vertex.mk.injEq, not_and]
    intro _ h2
    linarith
  · rw [leftPanel_eq] at h
    obtain ⟨nt, hnt, rfl⟩ := List.mem_map.mp h
    obtain ⟨k, hk, he⟩ := left_normal W H _ (by omega) hZ nt hnt
    rw [he]
    simp only [ne_eq, Vertex.mk.injEq, not_and]
    intro h1
    linarith
  · rw [back_normal h]
    simp

/-- C17: for every `W × H` frame with `W, H ≥ 2` and `minval < maxval`, every
emitted triangle has `(v1 - v0) × (v2 - v0) ≠ (0, 0, 0)`, and the squared length
`len` that `normalized` takes the root of and divides by is strictly positive. -/
theorem no_degenerate_triangle (W H : Nat) (depth : Nat → Nat) (hW : 2 ≤ W) (hH : 2 ≤ H)
    (hlt : (depthRange W H depth).1 < (depthRange W H depth).2) :
    ∀ t ∈ mainTris W H depth,
      normalDir t ≠ ⟨0, 0, 0⟩ ∧ 0 < normalizedLen (normalDir t) := by
  intro t ht
  have h := normalDir_ne_zero W H depth hW hH hlt t ht
  exact ⟨h, (normalizedLen_pos_iff _).mpr h⟩

/-- Witness of `no_degenerate_triangle`: the first bottom triangle of the
two-level `2 × 2` frame. -/
theorem no_degenerate_triangle_witness :
    normalDir ⟨⟨0, 0, -3⟩, ⟨1, 0, -3⟩, ⟨1, 0, 0⟩⟩ ≠ ⟨0, 0, 0⟩
      ∧ 0 < normalizedLen (normalDir ⟨⟨0, 0, -3⟩, ⟨1, 0, -3⟩, ⟨1, 0, 0⟩⟩) :=
  no_degenerate_triangle 2 2 (fun i => [100, 200, 100, 200].getD i 0)
    (by decide) (by decide) (by decide) _ sample_bottom_mem_main

/-- C18: `cross` is the right-handed cross product: `cross a b` is orthogonal to
`a` and to `b`, `cross b a` is the componentwise negation of `cross a b`,
`cross (1,0,0) (0,1,0) = (0,0,1)`, and the direction that `compute_normal`
normalizes is orthogonal to both edges `v1 - v0` and `v2 - v0`. -/
theorem cross_right_handed (a b : Vertex ℚ) (t : Triangle ℚ) :
    dot (cross a b) a = 0 ∧ dot (cross a b) b = 0
      ∧ cross b a = ⟨-(cross a b).x, -(cross a b).y, -(cross a b).z⟩
      ∧ cross ⟨1, 0, 0⟩ ⟨0, 1, 0⟩ = ⟨0, 0, 1⟩
      ∧ normalDir t = cross (t.v1.sub t.v0) (t.v2.sub t.v0)
      ∧ dot (normalDir t) (t.v1.sub t.v0) = 0
      ∧ dot (normalDir t) (t.v2.sub t.v0) = 0 := by
  refine ⟨?_, ?_, ?_, ?_, rfl, ?_, ?_⟩
  · simp only [dot, cross]; ring
  · simp only [dot, cross]; ring
  · simp only [cross, Vertex.mk.injEq]
    refine ⟨?_, ?_, ?_⟩ <;> ring
  · simp [cross]
  · simp only [dot, cross, normalDir, Vertex.sub]; ring
  · simp only [dot, cross, normalDir, Vertex.sub]; ring

/-- C16 (as amended): for every `W × H` frame with `W, H ≥ 2` and
`minval < maxval`, with the remapped depth taken in exact arithmetic, every
vertex `(x, y, z)` of every emitted triangle has `0 ≤ x ≤ W-1`, `0 ≤ y ≤ H-1`,
`-3 ≤ z ≤ 250`, and `z` is either `-3` or the remapped depth of the pixel under
the vertex, which lies in `[0, 250]`. -/
theorem bounding_box (W H : Nat) (depth : Nat → Nat) (hW : 2 ≤ W) (hH : 2 ≤ H)
    (hlt : (depthRange W H depth).1 < (depthRange W H depth).2) :
    ∀ t ∈ mainTris W H depth, ∀ v ∈ [t.v0, t.v1, t.v2],
      0 ≤ v.x ∧ v.x ≤ (W : ℚ) - 1 ∧ 0 ≤ v.y ∧ v.y ≤ (H : ℚ) - 1 ∧ -3 ≤ v.z ∧ v.z ≤ 250
        ∧ (v.z = -3 ∨ ∃ x y : Nat, x < W ∧ y < H ∧ v.x = x ∧ v.y = y
            ∧ v.z = getDistanceAt W depth x y (depthRange W H depth).1
                (depthRange W H depth).2
            ∧ 0 ≤ v.z ∧ v.z ≤ 250) := by
  intro t ht v hv
  have hm : mainTris W H depth = (meshNodes W H).map
      (placeTri (heightField W depth (depthRange W H depth).1 (depthRange W H depth).2)) :=
    meshFor_eq W H depth _ _
  rw [hm] at ht
  obtain ⟨nt, hnt, rfl⟩ := List.mem_map.mp ht
  have wf := meshNodes_wf W H (by omega) (by omega) nt hnt
  have key : ∀ n : Node, n.x < W ∧ n.y < H →
      v = place (heightField W depth (depthRange W H depth).1 (depthRange W H depth).2) n →
      0 ≤ v.x ∧ v.x ≤ (W : ℚ) - 1 ∧ 0 ≤ v.y ∧ v.y ≤ (H : ℚ) - 1 ∧ -3 ≤ v.z ∧ v.z ≤ 250
        ∧ (v.z = -3 ∨ ∃ x y : Nat, x < W ∧ y < H ∧ v.x = x ∧ v.y = y
            ∧ v.z = getDistanceAt W depth x y (depthRange W H depth).1
                (depthRange W H depth).2
            ∧ 0 ≤ v.z ∧ v.z ≤ 250) := by
    rintro ⟨x, y, f⟩ ⟨hx, hy⟩ rfl
    simp only at hx hy
    have hb := depthRange_bounds W H depth (y * W + x) (index_lt W H x y hx hy)
    have hz := getDistanceAt_bounds W depth x y _ _ hlt hb.1 hb.2
    have hxq : (x : ℚ) + 1 ≤ (W : ℚ) := by exact_mod_cast hx
    have hyq : (y : ℚ) + 1 ≤ (H : ℚ) := by exact_mod_cast hy
    have hx0 : (0 : ℚ) ≤ (x : ℚ) := Nat.cast_nonneg x
    have hy0 : (0 : ℚ) ≤ (y : ℚ) := Nat.cast_nonneg y
    cases f
    · simp only [place, Bool.false_eq_true, if_false, back]
      refine ⟨hx0, by linarith, hy0, by linarith, le_refl _, by norm_num, Or.inl trivial⟩
    · simp only [place, if_true, heightField]
      refine ⟨hx0, by linarith, hy0, by linarith, by linarith [hz.1], hz.2,
        Or.inr ⟨x, y, hx, hy, rfl, rfl, rfl, hz.1, hz.2⟩⟩
  simp only [placeTri, List.mem_cons, List.mem_singleton, List.not_mem_nil, or_false] at hv
  rcases hv with rfl | rfl | rfl
  · exact key nt.a wf.1 rfl
  · exact key nt.b wf.2.1 rfl
  · exact key nt.c wf.2.2.1 rfl

/-- Witness of `bounding_box`: the corner `(1, 0, 0)` of the first bottom triangle
of the two-level `2 × 2` frame. -/
theorem bounding_box_witness :
    (0 : ℚ) ≤ (⟨1, 0, 0⟩ : Vertex ℚ).x ∧ (⟨1, 0, 0⟩ : Vertex ℚ).x ≤ ((2 : Nat) : ℚ) - 1
      ∧ 0 ≤ (⟨1, 0, 0⟩ : Vertex ℚ).y ∧ (⟨1, 0, 0⟩ : Vertex ℚ).y ≤ ((2 : Nat) : ℚ) - 1
      ∧ -3 ≤ (⟨1, 0, 0⟩ : Vertex ℚ).z ∧ (⟨1, 0, 0⟩ : Vertex ℚ).z ≤ 250
      ∧ ((⟨1, 0, 0⟩ : Vertex ℚ).z = -3 ∨ ∃ x y : Nat, x < 2 ∧ y < 2
          ∧ (⟨1, 0, 0⟩ : Vertex ℚ).x = x ∧ (⟨1, 0, 0⟩ : Vertex ℚ).y = y
          ∧ (⟨1, 0, 0⟩ : Vertex ℚ).z
              = getDistanceAt 2 (fun i => [100, 200, 100, 200].getD i 0) x y
                (depthRange 2 2 (fun i => [100, 200, 100, 200].getD i 0)).1
                (depthRange 2 2 (fun i => [100, 200, 100, 200].getD i 0)).2
          ∧ 0 ≤ (⟨1, 0, 0⟩ : Vertex ℚ).z ∧ (⟨1, 0, 0⟩ : Vertex ℚ).z ≤ 250) :=
  bounding_box 2 2 (fun i => [100, 200, 100, 200].getD i 0)
    (by decide) (by decide) (by decide) _ sample_bottom_mem_main ⟨1, 0, 0⟩ (by simp)

/-! ## Order of the emitted triangles -/

theorem getElem?_flatMap_block {α β : Type} (l : List α) (F : α → List β) (k : Nat)
    (hk : ∀ a ∈ l, (F a).length = k) (i j : Nat) (hj : j < k) (a : α)
    (ha : l[i]? = some a) : (l.flatMap F)[i * k + j]? = (F a)[j]? := by
  induction l generalizing i with
  | nil => simp at ha
  | cons b l ih =>
    have hb : (F b).length = k := hk b (List.mem_cons_self _ _)
    cases i with
    | zero =>
      simp only [List.getElem?_cons_zero, Option.some.injEq] at ha
      subst ha
      rw [List.flatMap_cons, Nat.zero_mul, Nat.zero_add,
        List.getElem?_append_left (by omega)]
    | succ i =>
      simp only [List.getElem?_cons_succ] at ha
      rw [List.flatMap_cons, List.getElem?_append_right (by rw [hb]; nlinarith)]
      have : (i + 1) * k + j - (F b).length = i * k + j := by
        rw [hb, Nat.add_mul]; omega
      rw [this]
      exact ih (fun a ha => hk a (List.mem_cons_of_mem _ ha)) i ha

theorem getElem?_iota (n k : Nat) (hk : k < n) : (List.iota n)[k]? = some (n - k) := by
  induction n generalizing k with
  | zero => omega
  | succ n ih =>
    rw [List.iota_succ]
    cases k with
    | zero => simp
    | succ k =>
      rw [List.getElem?_cons_succ, ih k (by omega)]
      congr 1
      omega

theorem frontPanel_get (W H : Nat) (depth : Nat → Nat) (mn mx : Nat) (x y j : Nat)
    (hx : x < W - 1) (hy : y < H - 1) (hj : j < 2) :
    (frontPanel W H depth mn mx)[2 * (y * (W - 1) + x) + j]?
      = [ (⟨⟨x, y, getDistanceAt W depth x y mn mx⟩,
            ⟨(x : ℚ) + 1, y, getDistanceAt W depth (x + 1) y mn mx⟩,
            ⟨(x : ℚ) + 1, (y : ℚ) + 1, getDistanceAt W depth (x + 1) (y + 1) mn mx⟩⟩ :
              Triangle ℚ),
          ⟨⟨x, y, getDistanceAt W depth x y mn mx⟩,
            ⟨(x : ℚ) + 1, (y : ℚ) + 1, getDistanceAt W depth (x + 1) (y + 1) mn mx⟩,
            ⟨x, (y : ℚ) + 1, getDistanceAt W depth x (y + 1) mn mx⟩⟩ ][j]? := by
  have hidx : 2 * (y * (W - 1) + x) + j = y * (2 * (W - 1)) + (x * 2 + j) := by ring
  unfold frontPanel
  rw [hidx, getElem?_flatMap_block _ _ (2 * (W - 1)) _ y (x * 2 + j) (by omega) y
    (List.getElem?_range hy)]
  · rw [getElem?_flatMap_block _ _ 2 _ x j hj x (List.getElem?_range hx)]
    intro a _
    rfl
  · intro a _
    simp only [length_flatMap_pair, List.length_range]

theorem bottomPanel_get (W : Nat) (depth : Nat → Nat) (mn mx : Nat) (k j : Nat)
    (hk : k < W - 1) (hj : j < 2) :
    (bottomPanel W depth mn mx)[2 * k + j]?
      = [ skirtT0 k 0 ((k : ℚ) + 1) 0 (getDistanceAt W depth (k + 1) 0 mn mx),
          skirtT1 k 0 ((k : ℚ) + 1) 0 (getDistanceAt W depth k 0 mn mx)
            (getDistanceAt W depth (k + 1) 0 mn mx) ][j]? := by
  have hidx : 2 * k + j = k * 2 + j := by ring
  unfold bottomPanel
  rw [hidx, getElem?_flatMap_block _ _ 2 _ k j hj k (List.getElem?_range hk)]
  · simp [skirtT0, skirtT1]
  · intro a _
    rfl

theorem rightPanel_get (W H : Nat) (depth : Nat → Nat) (mn mx : Nat) (k j : Nat)
    (hk : k < H - 1) (hj : j < 2) :
    (rightPanel W H depth mn mx)[2 * k + j]?
      = [ skirtT0 ((W - 1 : Nat) : ℚ) k ((W - 1 : Nat) : ℚ) ((k : ℚ) + 1)
            (getDistanceAt W depth (W - 1) (k + 1) mn mx),
          skirtT1 ((W - 1 : Nat) : ℚ) k ((W - 1 : Nat) : ℚ) ((k : ℚ) + 1)
            (getDistanceAt W depth (W - 1) k mn mx)
            (getDistanceAt W depth (W - 1) (k + 1) mn mx) ][j]? := by
  have hidx : 2 * k + j = k * 2 + j := by ring
  unfold rightPanel
  rw [hidx, getElem?_flatMap_block _ _ 2 _ k j hj k (List.getElem?_range hk)]
  · simp [skirtT0, skirtT1]
  · intro a _
    rfl

theorem topPanel_get (W H : Nat) (depth : Nat → Nat) (mn mx : Nat) (k j : Nat)
    (hk : k < W - 1) (hj : j < 2) :
    (topPanel W H depth mn mx)[2 * k + j]?
      = [ skirtT0 ((W - 1 - k : Nat) : ℚ) ((H - 1 : Nat) : ℚ)
            (((W - 1 - k : Nat) : ℚ) - 1) ((H - 1 : Nat) : ℚ)
            (getDistanceAt W depth (W - 1 - k - 1) (H - 1) mn mx),
          skirtT1 ((W - 1 - k : Nat) : ℚ) ((H - 1 : Nat) : ℚ)
            (((W - 1 - k : Nat) : ℚ) - 1) ((H - 1 : Nat) : ℚ)
            (getDistanceAt W depth (W - 1 - k) (H - 1) mn mx)
            (getDistanceAt W depth (W - 1 - k - 1) (H - 1) mn mx) ][j]? := by
  have hidx : 2 * k + j = k * 2 + j := by ring
  unfold topPanel
  rw [hidx, getElem?_flatMap_block _ _ 2 _ k j hj (W - 1 - k) (getElem?_iota _ _ hk)]
  · simp [skirtT0, skirtT1]
  · intro a _
    rfl

theorem leftPanel_get (W H : Nat) (depth : Nat → Nat) (mn mx : Nat) (k j : Nat)
    (hk : k < H - 1) (hj : j < 2) :
    (leftPanel W H depth mn mx)[2 * k + j]?
      = [ skirtT0 0 ((H - 1 - k : Nat) : ℚ) 0 (((H - 1 - k : Nat) : ℚ) - 1)
            (getDistanceAt W depth 0 (H - 1 - k - 1) mn mx),
          skirtT1 0 ((H - 1 - k : Nat) : ℚ) 0 (((H - 1 - k : Nat) : ℚ) - 1)
            (getDistanceAt W depth 0 (H - 1 - k) mn mx)
            (getDistanceAt W depth 0 (H - 1 - k - 1) mn mx) ][j]? := by
  have hidx : 2 * k + j = k * 2 + j := by ring
  unfold leftPanel
  rw [hidx, getElem?_flatMap_block _ _ 2 _ k j hj (H - 1 - k) (getElem?_iota _ _ hk)]
  · simp [skirtT0, skirtT1]
  · intro a _
    rfl

theorem meshFor_get_front (W H : Nat) (depth : Nat → Nat) (mn mx i : Nat)
    (hi : i < 2 * (W - 1) * (H - 1)) :
    (meshFor W H depth mn mx)[i]? = (frontPanel W H depth mn mx)[i]? := by
  unfold meshFor
  simp only [List.append_assoc]
  exact List.getElem?_append_left (by rw [length_frontPanel]; exact hi)

theorem meshFor_get_bottom (W H : Nat) (depth : Nat → Nat) (mn mx i : Nat)
    (hi : i < 2 * (W - 1)) :
    (meshFor W H depth mn mx)[2 * (W - 1) * (H - 1) + i]?
      = (bottomPanel W depth mn mx)[i]? := by
  unfold meshFor
  simp only [List.append_assoc]
  rw [List.getElem?_append_right (by rw [length_frontPanel]; omega), length_frontPanel,
    Nat.add_sub_cancel_left,
    List.getElem?_append_left (by rw [length_bottomPanel]; exact hi)]

theorem meshFor_get_right (W H : Nat) (depth : Nat → Nat) (mn mx i : Nat)
    (hi : i < 2 * (H - 1)) :
    (meshFor W H depth mn mx)[2 * (W - 1) * (H - 1) + 2 * (W - 1) + i]?
      = (rightPanel W H depth mn mx)[i]? := by
  unfold meshFor
  simp only [List.append_assoc]
  rw [List.getElem?_append_right (by rw [length_frontPanel]; omega), length_frontPanel,
    List.getElem?_append_right (by rw [length_bottomPanel]; omega), length_bottomPanel]
  have h : 2 * (W - 1) * (H - 1) + 2 * (W - 1) + i - 2 * (W - 1) * (H - 1) - 2 * (W - 1)
      = i := by omega
  rw [h, List.getElem?_append_left (by rw [length_rightPanel]; exact hi)]

theorem meshFor_get_top (W H : Nat) (depth : Nat → Nat) (mn mx i : Nat)
    (hi : i < 2 * (W - 1)) :
    (meshFor W H depth mn mx)[2 * (W - 1) * (H - 1) + 2 * (W - 1) + 2 * (H - 1) + i]?
      = (topPanel W H depth mn mx)[i]? := by
  unfold meshFor
  simp only [List.append_assoc]
  rw [List.getElem?_append_right (by rw [length_frontPanel]; omega), length_frontPanel,
    List.getElem?_append_right (by rw [length_bottomPanel]; omega), length_bottomPanel,
    List.getElem?_append_right (by rw [length_rightPanel]; omega), length_rightPanel]
  have h : 2 * (W - 1) * (H - 1) + 2 * (W - 1) + 2 * (H - 1) + i - 2 * (W - 1) * (H - 1)
      - 2 * (W - 1) - 2 * (H - 1) = i := by omega
  rw [h, List.getElem?_append_left (by rw [length_topPanel]; exact hi)]

theorem meshFor_get_left (W H : Nat) (depth : Nat → Nat) (mn mx i : Nat)
    (hi : i < 2 * (H - 1)) :
    (meshFor W H depth mn mx)[2 * (W - 1) * (H - 1) + 2 * (W - 1) + 2 * (H - 1)
        + 2 * (W - 1) + i]?
      = (leftPanel W H depth mn mx)[i]? := by
  unfold meshFor
  simp only [List.append_assoc]
  rw [List.getElem?_append_right (by rw [length_frontPanel]; omega), length_frontPanel,
    List.getElem?_append_right (by rw [length_bottomPanel]; omega), length_bottomPanel,
    List.getElem?_append_right (by rw [length_rightPanel]; omega), length_rightPanel,
    List.getElem?_append_right (by rw [length_topPanel]; omega), length_topPanel]
  have h : 2 * (W - 1) * (H - 1) + 2 * (W - 1) + 2 * (H - 1) + 2 * (W - 1) + i
      - 2 * (W - 1) * (H - 1) - 2 * (W - 1) - 2 * (H - 1) - 2 * (W - 1) = i := by omega
  rw [h, List.getElem?_append_left (by rw [length_leftPanel]; exact hi)]

theorem cell_index_lt (W H x y : Nat) (hx : x < W - 1) (hy : y < H - 1) :
    2 * (y * (W - 1) + x) + 1 < 2 * (W - 1) * (H - 1) := by
  have h1 : y * (W - 1) + x < (y + 1) * (W - 1) := by rw [Nat.add_mul]; omega
  have h2 : (y + 1) * (W - 1) ≤ (H - 1) * (W - 1) := Nat.mul_le_mul_right _ (by omega)
  have h3 : 2 * (W - 1) * (H - 1) = 2 * ((H - 1) * (W - 1)) := by ring
  omega

/-- C13: for every `W × H` frame with `W, H ≥ 2` and every cell `(x, y)`,
`x < W-1`, `y < H-1`, the emitted triangle at index `2(y(W-1) + x)` is
`((x, y, Z(x,y)), (x+1, y, Z(x+1,y)), (x+1, y+1, Z(x+1,y+1)))` and the one at the
next index is `((x, y, Z(x,y)), (x+1, y+1, Z(x+1,y+1)), (x, y+1, Z(x,y+1)))`, `Z`
the remapped depth; both indices are below `2(W-1)(H-1)`, the front surface being
the first panel. -/
theorem front_layout (W H : Nat) (depth : Nat → Nat) (_hW : 2 ≤ W) (_hH : 2 ≤ H)
    (x y : Nat) (hx : x < W - 1) (hy : y < H - 1) :
    (mainTris W H depth)[2 * (y * (W - 1) + x)]?
        = some ⟨⟨x, y, getDistanceAt W depth x y (depthRange W H depth).1
                  (depthRange W H depth).2⟩,
                ⟨(x : ℚ) + 1, y, getDistanceAt W depth (x + 1) y (depthRange W H depth).1
                  (depthRange W H depth).2⟩,
                ⟨(x : ℚ) + 1, (y : ℚ) + 1, getDistanceAt W depth (x + 1) (y + 1)
                  (depthRange W H depth).1 (depthRange W H depth).2⟩⟩
      ∧ (mainTris W H depth)[2 * (y * (W - 1) + x) + 1]?
        = some ⟨⟨x, y, getDistanceAt W depth x y (depthRange W H depth).1
                  (depthRange W H depth).2⟩,
                ⟨(x : ℚ) + 1, (y : ℚ) + 1, getDistanceAt W depth (x + 1) (y + 1)
                  (depthRange W H depth).1 (depthRange W H depth).2⟩,
                ⟨x, (y : ℚ) + 1, getDistanceAt W depth x (y + 1) (depthRange W H depth).1
                  (depthRange W H depth).2⟩⟩
      ∧ 2 * (y * (W - 1) + x) + 1 < 2 * (W - 1) * (H - 1) := by
  have hlt := cell_index_lt W H x y hx hy
  have h0 := frontPanel_get W H depth (depthRange W H depth).1 (depthRange W H depth).2
    x y 0 hx hy (by decide)
  have h1 := frontPanel_get W H depth (depthRange W H depth).1 (depthRange W H depth).2
    x y 1 hx hy (by decide)
  have g0 := meshFor_get_front W H depth (depthRange W H depth).1 (depthRange W H depth).2
    (2 * (y * (W - 1) + x)) (by omega)
  have g1 := meshFor_get_front W H depth (depthRange W H depth).1 (depthRange W H depth).2
    (2 * (y * (W - 1) + x) + 1) hlt
  refine ⟨?_, ?_, hlt⟩
  · exact g0.trans (by simpa using h0)
  · exact g1.trans (by simpa using h1)

/-- Witness of `front_layout`: cell `(0, 0)` of the two-level `2 × 2` frame. -/
theorem front_layout_witness :
    (mainTris 2 2 (fun i => [100, 200, 100, 200].getD i 0))[2 * (0 * (2 - 1) + 0)]?
      = some ⟨⟨((0 : Nat) : ℚ), ((0 : Nat) : ℚ),
                getDistanceAt 2 (fun i => [100, 200, 100, 200].getD i 0) 0 0
                  (depthRange 2 2 (fun i => [100, 200, 100, 200].getD i 0)).1
                  (depthRange 2 2 (fun i => [100, 200, 100, 200].getD i 0)).2⟩,
              ⟨((0 : Nat) : ℚ) + 1, ((0 : Nat) : ℚ),
                getDistanceAt 2 (fun i => [100, 200, 100, 200].getD i 0) (0 + 1) 0
                  (depthRange 2 2 (fun i => [100, 200, 100, 200].getD i 0)).1
                  (depthRange 2 2 (fun i => [100, 200, 100, 200].getD i 0)).2⟩,
              ⟨((0 : Nat) : ℚ) + 1, ((0 : Nat) : ℚ) + 1,
                getDistanceAt 2 (fun i => [100, 200, 100, 200].getD i 0) (0 + 1) (0 + 1)
                  (depthRange 2 2 (fun i => [100, 200, 100, 200].getD i 0)).1
                  (depthRange 2 2 (fun i => [100, 200, 100, 200].getD i 0)).2⟩⟩ :=
  (front_layout 2 2 (fun i => [100, 200, 100, 200].getD i 0) (by decide) (by decide)
    0 0 (by decide) (by decide)).1

/-- C14: after the `2(W-1)(H-1)` front triangles the sequence holds `2(W-1)`
bottom, `2(H-1)` right, `2(W-1)` top and `2(H-1)` left triangles, in that order.
The `k`-th bottom quad joins `(k, 0)` to `(k+1, 0)`, the `k`-th right quad joins
`(W-1, k)` to `(W-1, k+1)`, the `k`-th top quad joins `(x, H-1)` to `(x-1, H-1)`
with `x = W-1-k`, and the `k`-th left quad joins `(0, y)` to `(0, y-1)` with
`y = H-1-k`; each quad is `skirtT0` then `skirtT1`, with the rear plane at `-3`. -/
theorem skirt_layout (W H : Nat) (depth : Nat → Nat) (_hW : 2 ≤ W) (_hH : 2 ≤ H) :
    (∀ k, k < W - 1 →
        (mainTris W H depth)[2 * (W - 1) * (H - 1) + 2 * k]?
          = some (skirtT0 k 0 ((k : ℚ) + 1) 0
              (getDistanceAt W depth (k + 1) 0 (depthRange W H depth).1
                (depthRange W H depth).2))
        ∧ (mainTris W H depth)[2 * (W - 1) * (H - 1) + 2 * k + 1]?
          = some (skirtT1 k 0 ((k : ℚ) + 1) 0
              (getDistanceAt W depth k 0 (depthRange W H depth).1 (depthRange W H depth).2)
              (getDistanceAt W depth (k + 1) 0 (depthRange W H depth).1
                (depthRange W H depth).2)))
      ∧ (∀ k, k < H - 1 →
        (mainTris W H depth)[2 * (W - 1) * (H - 1) + 2 * (W - 1) + 2 * k]?
          = some (skirtT0 ((W - 1 : Nat) : ℚ) k ((W - 1 : Nat) : ℚ) ((k : ℚ) + 1)
              (getDistanceAt W depth (W - 1) (k + 1) (depthRange W H depth).1
                (depthRange W H depth).2))
        ∧ (mainTris W H depth)[2 * (W - 1) * (H - 1) + 2 * (W - 1) + 2 * k + 1]?
          = some (skirtT1 ((W - 1 : Nat) : ℚ) k ((W - 1 : Nat) : ℚ) ((k : ℚ) + 1)
              (getDistanceAt W depth (W - 1) k (depthRange W H depth).1
                (depthRange W H depth).2)
              (getDistanceAt W depth (W - 1) (k + 1) (depthRange W H depth).1
                (depthRange W H depth).2)))
      ∧ (∀ k, k < W - 1 →
        (mainTris W H depth)[2 * (W - 1) * (H - 1) + 2 * (W - 1) + 2 * (H - 1) + 2 * k]?
          = some (skirtT0 ((W - 1 - k : Nat) : ℚ) ((H - 1 : Nat) : ℚ)
              (((W - 1 - k : Nat) : ℚ) - 1) ((H - 1 : Nat) : ℚ)
              (getDistanceAt W depth (W - 1 - k - 1) (H - 1) (depthRange W H depth).1
                (depthRange W H depth).2))
        ∧ (mainTris W H depth)[2 * (W - 1) * (H - 1) + 2 * (W - 1) + 2 * (H - 1)
              + 2 * k + 1]?
          = some (skirtT1 ((W - 1 - k : Nat) : ℚ) ((H - 1 : Nat) : ℚ)
              (((W - 1 - k : Nat) : ℚ) - 1) ((H - 1 : Nat) : ℚ)
              (getDistanceAt W depth (W - 1 - k) (H - 1) (depthRange W H depth).1
                (depthRange W H depth).2)
              (getDistanceAt W depth (W - 1 - k - 1) (H - 1) (depthRange W H depth).1
                (depthRange W H depth).2)))
      ∧ (∀ k, k < H - 1 →
        (mainTris W H depth)[2 * (W - 1) * (H - 1) + 2 * (W - 1) + 2 * (H - 1)
              + 2 * (W - 1) + 2 * k]?
          = some (skirtT0 0 ((H - 1 - k : Nat) : ℚ) 0 (((H - 1 - k : Nat) : ℚ) - 1)
              (getDistanceAt W depth 0 (H - 1 - k - 1) (depthRange W H depth).1
                (depthRange W H depth).2))
        ∧ (mainTris W H depth)[2 * (W - 1) * (H - 1) + 2 * (W - 1) + 2 * (H - 1)
              + 2 * (W - 1) + 2 * k + 1]?
          = some (skirtT1 0 ((H - 1 - k : Nat) : ℚ) 0 (((H - 1 - k : Nat) : ℚ) - 1)
              (getDistanceAt W depth 0 (H - 1 - k) (depthRange W H depth).1
                (depthRange W H depth).2)
              (getDistanceAt W depth 0 (H - 1 - k - 1) (depthRange W H depth).1
                (depthRange W H depth).2))) := by
  refine ⟨?_, ?_, ?_, ?_⟩
  · intro k hk
    have g0 := meshFor_get_bottom W H depth (depthRange W H depth).1
      (depthRange W H depth).2 (2 * k + 0) (by omega)
    have g1 := meshFor_get_bottom W H depth (depthRange W H depth).1
      (depthRange W H depth).2 (2 * k + 1) (by omega)
    rw [bottomPanel_get W depth _ _ k 0 hk (by decide)] at g0
    rw [bottomPanel_get W depth _ _ k 1 hk (by decide)] at g1
    exact ⟨by simpa using g0, by simpa [Nat.add_assoc] using g1⟩
  · intro k hk
    have g0 := meshFor_get_right W H depth (depthRange W H depth).1
      (depthRange W H depth).2 (2 * k + 0) (by omega)
    have g1 := meshFor_get_right W H depth (depthRange W H depth).1
      (depthRange W H depth).2 (2 * k + 1) (by omega)
    rw [rightPanel_get W H depth _ _ k 0 hk (by decide)] at g0
    rw [rightPanel_get W H depth _ _ k 1 hk (by decide)] at g1
    exact ⟨by simpa using g0, by simpa [Nat.add_assoc] using g1⟩
  · intro k hk
    have g0 := meshFor_get_top W H depth (depthRange W H depth).1
      (depthRange W H depth).2 (2 * k + 0) (by omega)
    have g1 := meshFor_get_top W H depth (depthRange W H depth).1
      (depthRange W H depth).2 (2 * k + 1) (by omega)
    rw [topPanel_get W H depth _ _ k 0 hk (by decide)] at g0
    rw [topPanel_get W H depth _ _ k 1 hk (by decide)] at g1
    exact ⟨by simpa using g0, by simpa [Nat.add_assoc] using g1⟩
  · intro k hk
    have g0 := meshFor_get_left W H depth (depthRange W H depth).1
      (depthRange W H depth).2 (2 * k + 0) (by omega)
    have g1 := meshFor_get_left W H depth (depthRange W H depth).1
      (depthRange W H depth).2 (2 * k + 1) (by omega)
    rw [leftPanel_get W H depth _ _ k 0 hk (by decide)] at g0
    rw [leftPanel_get W H depth _ _ k 1 hk (by decide)] at g1
    exact ⟨by simpa using g0, by simpa [Nat.add_assoc] using g1⟩

/-- Witness of `skirt_layout`: the first bottom triangle of the two-level
`2 × 2` frame, at index 2. -/
theorem skirt_layout_witness :
    (mainTris 2 2 (fun i => [100, 200, 100, 200].getD i 0))[2 * (2 - 1) * (2 - 1) + 2 * 0]?
      = some (skirtT0 ((0 : Nat) : ℚ) 0 (((0 : Nat) : ℚ) + 1) 0
          (getDistanceAt 2 (fun i => [100, 200, 100, 200].getD i 0) (0 + 1) 0
            (depthRange 2 2 (fun i => [100, 200, 100, 200].getD i 0)).1
            (depthRange 2 2 (fun i => [100, 200, 100, 200].getD i 0)).2)) :=
  ((skirt_layout 2 2 (fun i => [100, 200, 100, 200].getD i 0) (by decide) (by decide)).1
    0 (by decide)).1

/-! ## Consistent orientation -/

theorem count_map_of_injOn {α β : Type} [DecidableEq α] [DecidableEq β] (f : α → β)
    (l : List α) (a : α) (h : ∀ b ∈ l, f b = f a → b = a) :
    List.count (f a) (l.map f) = List.count a l := by
  induction l with
  | nil => simp
  | cons b l ih =>
    have ih' := ih fun c hc => h c (List.mem_cons_of_mem _ hc)
    have hb := h b (List.mem_cons_self _ _)
    simp only [List.map_cons, List.count_cons, ih', beq_iff_eq]
    by_cases hba : b = a
    · simp [hba]
    · have : f b ≠ f a := fun hf => hba (hb hf)
      simp [hba, this]

/-- The directed edges of the placed mesh are the placed directed edges of the
combinatorial mesh. -/
theorem edges_map_placeTri (Z : Nat → Nat → ℚ) (l : List NodeTri) :
    (l.map (placeTri Z)).flatMap Triangle.edges
      = (l.flatMap NodeTri.edges).map (Edge.map (place Z)) := by
  induction l with
  | nil => rfl
  | cons t l ih =>
    simp only [List.map_cons, List.flatMap_cons, List.map_append, ih]
    rfl

/-- Both endpoints of every directed edge of the combinatorial mesh lie on pixels
of the frame. -/
theorem edge_in_frame (W H : Nat) (hW : 1 ≤ W) (hH : 1 ≤ H) (e : Edge Node)
    (he : e ∈ (meshNodes W H).flatMap NodeTri.edges) :
    (e.src.x < W ∧ e.src.y < H) ∧ (e.dst.x < W ∧ e.dst.y < H) := by
  obtain ⟨t, ht, het⟩ := List.mem_flatMap.mp he
  have wf := meshNodes_wf W H hW hH t ht
  simp only [NodeTri.edges, List.mem_cons, List.mem_singleton, List.not_mem_nil,
    or_false] at het
  rcases het with rfl | rfl | rfl
  · exact ⟨wf.1, wf.2.1⟩
  · exact ⟨wf.2.1, wf.2.2.1⟩
  · exact ⟨wf.2.2.1, wf.1⟩

/-- Placing is injective on edges whose endpoints lie on pixels of the frame. -/
theorem edge_map_place_inj (W H : Nat) (Z : Nat → Nat → ℚ)
    (hZ : ∀ x y, x < W → y < H → 0 ≤ Z x y) (a b : Edge Node)
    (ha : (a.src.x < W ∧ a.src.y < H) ∧ (a.dst.x < W ∧ a.dst.y < H))
    (hb : (b.src.x < W ∧ b.src.y < H) ∧ (b.dst.x < W ∧ b.dst.y < H))
    (h : Edge.map (place Z) b = Edge.map (place Z) a) : b = a := by
  obtain ⟨as, ad⟩ := a
  obtain ⟨bs, bd⟩ := b
  simp only [Edge.map, Edge.mk.injEq] at h
  have h1 := (place_eq_iff W H Z hZ bs as hb.1 ha.1).mp h.1
  have h2 := (place_eq_iff W H Z hZ bd ad hb.2 ha.2).mp h.2
  simp only at h1 h2
  rw [h1, h2]

/-- In the mesh placed over a height field that is non-negative on the frame,
every directed edge occurs once and its reverse occurs once. -/
theorem placed_edges_paired (W H : Nat) (hW : 2 ≤ W) (hH : 2 ≤ H) (Z : Nat → Nat → ℚ)
    (hZ : ∀ x y, x < W → y < H → 0 ≤ Z x y) (e : Edge (Vertex ℚ))
    (he : e ∈ ((meshNodes W H).map (placeTri Z)).flatMap Triangle.edges) :
    List.count e (((meshNodes W H).map (placeTri Z)).flatMap Triangle.edges) = 1
      ∧ List.count e.rev (((meshNodes W H).map (placeTri Z)).flatMap Triangle.edges) = 1 := by
  rw [edges_map_placeTri] at he ⊢
  obtain ⟨ne, hne, rfl⟩ := List.mem_map.mp he
  have hp := node_edges_paired W H hW hH ne hne
  have hF := edge_in_frame W H (by omega) (by omega)
  have hneF := hF ne hne
  have hrev : (Edge.map (place Z) ne).rev = Edge.map (place Z) ne.rev := rfl
  rw [hrev, count_map_of_injOn _ _ ne, count_map_of_injOn _ _ ne.rev]
  · exact hp
  · intro b hb hbe
    exact edge_map_place_inj W H Z hZ ne.rev b ⟨hneF.2, hneF.1⟩ (hF b hb) hbe
  · intro b hb hbe
    exact edge_map_place_inj W H Z hZ ne b hneF (hF b hb) hbe

/-- C19: for every `W × H` frame with `W, H ≥ 2` and `minval < maxval`, every
directed edge `(a, b)` taken in winding order from the emitted triangles
(`v0 → v1`, `v1 → v2`, `v2 → v0`) occurs exactly once among the directed edges
of the whole mesh, and its reverse `(b, a)` occurs exactly once as well. -/
theorem consistent_orientation (W H : Nat) (depth : Nat → Nat) (hW : 2 ≤ W) (hH : 2 ≤ H)
    (hlt : (depthRange W H depth).1 < (depthRange W H depth).2) :
    ∀ e ∈ (mainTris W H depth).flatMap Triangle.edges,
      List.count e ((mainTris W H depth).flatMap Triangle.edges) = 1
        ∧ List.count e.rev ((mainTris W H depth).flatMap Triangle.edges) = 1 := by
  have hm : mainTris W H depth = (meshNodes W H).map
      (placeTri (heightField W depth (depthRange W H depth).1 (depthRange W H depth).2)) :=
    meshFor_eq W H depth _ _
  rw [hm]
  intro e he
  exact placed_edges_paired W H hW hH _
    (fun x y hx hy => heightField_nonneg W H depth x y hx hy hlt) e he

/-- Witness of `consistent_orientation`: the edge `(0,0,-3) → (1,0,-3)` of the
first bottom triangle of the two-level `2 × 2` frame. -/
theorem consistent_orientation_witness :
    List.count (⟨⟨0, 0, -3⟩, ⟨1, 0, -3⟩⟩ : Edge (Vertex ℚ))
          ((mainTris 2 2 (fun i => [100, 200, 100, 200].getD i 0)).flatMap Triangle.edges) = 1
      ∧ List.count (⟨⟨0, 0, -3⟩, ⟨1, 0, -3⟩⟩ : Edge (Vertex ℚ)).rev
          ((mainTris 2 2 (fun i => [100, 200, 100, 200].getD i 0)).flatMap Triangle.edges)
            = 1 :=
  consistent_orientation 2 2 (fun i => [100, 200, 100, 200].getD i 0)
    (by decide) (by decide) (by decide) _
    (List.mem_flatMap.mpr ⟨_, sample_bottom_mem_main, by simp [Triangle.edges]⟩)

/-! ## Driver status checks and the degenerate depth range -/

/-- C12 (as amended): the program exits with code 1 and the diagnostic
"No kinect found", without building a mesh, if and only if the status of the
video probe is negative; it exits with code 1 and "Could not get depth" if and
only if the video status is non-negative and the status of the depth fetch is
negative; it builds the mesh if and only if both are non-negative. -/
theorem driver_status (videoRet depthRet : Int) (W H : Nat) (depth : Nat → Nat) :
    (mainOutcome videoRet depthRet W H depth = Outcome.exit 1 "No kinect found"
        ↔ videoRet < 0)
      ∧ (mainOutcome videoRet depthRet W H depth = Outcome.exit 1 "Could not get depth"
        ↔ 0 ≤ videoRet ∧ depthRet < 0)
      ∧ (mainOutcome videoRet depthRet W H depth = Outcome.wrote (mainTris W H depth)
        ↔ 0 ≤ videoRet ∧ 0 ≤ depthRet) := by
  unfold mainOutcome
  by_cases hv : videoRet < 0
  · simp [hv]
  · by_cases hd : depthRet < 0
    · simp [hv, hd]
      all_goals omega
    · simp [hv, hd]
      all_goals omega

/-- C12 (as stated) fails: the video status 1 is non-zero, yet the program does
not exit with "No kinect found"; it goes on to build the mesh. -/
theorem positive_status_not_rejected :
    (1 : Int) ≠ 0
      ∧ mainOutcome 1 0 2 2 (fun i => [100, 200, 100, 200].getD i 0)
          ≠ Outcome.exit 1 "No kinect found"
      ∧ mainOutcome 1 0 2 2 (fun i => [100, 200, 100, 200].getD i 0)
          = Outcome.wrote (mainTris 2 2 (fun i => [100, 200, 100, 200].getD i 0)) := by
  refine ⟨by decide, ?_, ?_⟩
  · simp [mainOutcome]
  · simp [mainOutcome]

/-- The scan of a non-empty frame whose samples all equal `s` returns `(s, s)`. -/
theorem depthRange_uniform (W H s : Nat) (hW : 0 < W) (hH : 0 < H) (hs : s ≤ 65535) :
    depthRange W H (fun _ => s) = (s, s) := by
  have h0 : 0 < W * H := Nat.mul_pos hW hH
  have hb := depthRange_bounds W H (fun _ => s) 0 h0
  have hmin := scan_min_attained (fun _ => s) (scanIndices W H) (65535, 0)
  have hmax := scan_max_attained (fun _ => s) (scanIndices W H) (65535, 0)
  rw [← depthRange_eq_foldl] at hmin hmax
  simp only at hb hmin hmax
  have h1 : (depthRange W H (fun _ => s)).1 = s := by
    rcases hmin with h | ⟨i, -, h⟩ <;> omega
  have h2 : (depthRange W H (fun _ => s)).2 = s := by
    rcases hmax with h | ⟨i, -, h⟩ <;> omega
  exact Prod.ext h1 h2

/-- C11 fails on the code: for the `640 × 480` frame whose samples all equal 2047
the scan returns `minval = maxval = 2047`, every call of the remapper divides by
the zero span, and the program neither exits nor skips the mesh: it hands all
1,228,796 triangles to the writer. -/
theorem uniform_frame_divides_by_zero :
    depthRange 640 480 (fun _ => 2047) = (2047, 2047)
      ∧ (∀ x y, getDistanceAtChecked 640 (fun _ => 2047) x y
            (depthRange 640 480 (fun _ => 2047)).1
            (depthRange 640 480 (fun _ => 2047)).2 = none)
      ∧ mainOutcome 0 0 640 480 (fun _ => 2047)
          = Outcome.wrote (mainTris 640 480 (fun _ => 2047))
      ∧ (mainTris 640 480 (fun _ => 2047)).length = 1228796 := by
  have hr := depthRange_uniform 640 480 2047 (by decide) (by decide) (by decide)
  refine ⟨hr, ?_, ?_, ?_⟩
  · intro x y
    rw [hr]
    simp [getDistanceAtChecked]
  · simp [mainOutcome]
  · exact (length_meshFor 640 480 (fun _ => 2047) _ _).trans (by norm_num)

/-! ## Index safety -/

theorem readDepth?_eq (W H : Nat) (frame : List Nat) (hlen : frame.length = W * H)
    (x y : Nat) (hx : x < W) (hy : y < H) :
    readDepth? W H frame x y = some (frame.getD (y * W + x) 0) := by
  have hi : y * W + x < frame.length := by rw [hlen]; exact index_lt W H x y hx hy
  simp [readDepth?, hx, hy, List.getD_eq_getElem?_getD, List.getElem?_eq_getElem hi]

theorem getDistanceAt?_eq (W H : Nat) (frame : List Nat) (hlen : frame.length = W * H)
    (x y mn mx : Nat) (hx : x < W) (hy : y < H) :
    getDistanceAt? W H frame x y mn mx
      = some (getDistanceAt W (fun i => frame.getD i 0) x y mn mx) := by
  simp [getDistanceAt?, getDistanceAt, readDepth?_eq W H frame hlen x y hx hy]

theorem foldlM_eq_some {α β : Type} (f : β → α → Option β) (g : β → α → β) (l : List α)
    (h : ∀ acc, ∀ a ∈ l, f acc a = some (g acc a)) (init : β) :
    l.foldlM f init = some (l.foldl g init) := by
  induction l generalizing init with
  | nil => rfl
  | cons a l ih =>
    rw [List.foldlM_cons, h init a (List.mem_cons_self _ _)]
    exact ih (fun acc b hb => h acc b (List.mem_cons_of_mem _ hb)) (g init a)

theorem forChecked_eq_some {α β : Type} (l : List α) (body : α → Option (List β))
    (f : α → List β) (h : ∀ a ∈ l, body a = some (f a)) :
    forChecked l body = some (l.flatMap f) := by
  induction l with
  | nil => rfl
  | cons a l ih =>
    have ih' := ih fun b hb => h b (List.mem_cons_of_mem _ hb)
    simp [forChecked, h a (List.mem_cons_self _ _), ih']

theorem depthRange?_eq (W H : Nat) (frame : List Nat) (hlen : frame.length = W * H) :
    depthRange? W H frame = some (depthRange W H (fun i => frame.getD i 0)) := by
  unfold depthRange? depthRange
  apply foldlM_eq_some
  intro acc y hy
  apply foldlM_eq_some
  intro acc' x hx
  simp [readDepth?_eq W H frame hlen x y (List.mem_range.mp hx) (List.mem_range.mp hy)]

theorem frontPanel?_eq (W H : Nat) (frame : List Nat) (hlen : frame.length = W * H)
    (mn mx : Nat) :
    frontPanel? W H frame mn mx = some (frontPanel W H (fun i => frame.getD i 0) mn mx) := by
  unfold frontPanel? frontPanel
  apply forChecked_eq_some
  intro y hy
  have hy' := List.mem_range.mp hy
  apply forChecked_eq_some
  intro x hx
  have hx' := List.mem_range.mp hx
  simp [getDistanceAt?_eq W H frame hlen x y mn mx (by omega) (by omega),
    getDistanceAt?_eq W H frame hlen (x + 1) y mn mx (by omega) (by omega),
    getDistanceAt?_eq W H frame hlen x (y + 1) mn mx (by omega) (by omega),
    getDistanceAt?_eq W H frame hlen (x + 1) (y + 1) mn mx (by omega) (by omega)]

theorem bottomPanel?_eq (W H : Nat) (hH : 1 ≤ H) (frame : List Nat)
    (hlen : frame.length = W * H) (mn mx : Nat) :
    bottomPanel? W H frame mn mx = some (bottomPanel W (fun i => frame.getD i 0) mn mx) := by
  unfold bottomPanel? bottomPanel
  apply forChecked_eq_some
  intro x hx
  have hx' := List.mem_range.mp hx
  simp [getDistanceAt?_eq W H frame hlen x 0 mn mx (by omega) (by omega),
    getDistanceAt?_eq W H frame hlen (x + 1) 0 mn mx (by omega) (by omega)]

theorem rightPanel?_eq (W H : Nat) (hW : 1 ≤ W) (frame : List Nat)
    (hlen : frame.length = W * H) (mn mx : Nat) :
    rightPanel? W H frame mn mx
      = some (rightPanel W H (fun i => frame.getD i 0) mn mx) := by
  unfold rightPanel? rightPanel
  apply forChecked_eq_some
  intro y hy
  have hy' := List.mem_range.mp hy
  simp [getDistanceAt?_eq W H frame hlen (W - 1) y mn mx (by omega) (by omega),
    getDistanceAt?_eq W H frame hlen (W - 1) (y + 1) mn mx (by omega) (by omega)]

theorem topPanel?_eq (W H : Nat) (hH : 1 ≤ H) (frame : List Nat)
    (hlen : frame.length = W * H) (mn mx : Nat) :
    topPanel? W H frame mn mx = some (topPanel W H (fun i => frame.getD i 0) mn mx) := by
  unfold topPanel? topPanel
  apply forChecked_eq_some
  intro x hx
  have hx' := List.mem_iota.mp hx
  simp [getDistanceAt?_eq W H frame hlen x (H - 1) mn mx (by omega) (by omega),
    getDistanceAt?_eq W H frame hlen (x - 1) (H - 1) mn mx (by omega) (by omega)]

theorem leftPanel?_eq (W H : Nat) (hW : 1 ≤ W) (frame : List Nat)
    (hlen : frame.length = W * H) (mn mx : Nat) :
    leftPanel? W H frame mn mx = some (leftPanel W H (fun i => frame.getD i 0) mn mx) := by
  unfold leftPanel? leftPanel
  apply forChecked_eq_some
  intro y hy
  have hy' := List.mem_iota.mp hy
  simp [getDistanceAt?_eq W H frame hlen 0 y mn mx (by omega) (by omega),
    getDistanceAt?_eq W H frame hlen 0 (y - 1) mn mx (by omega) (by omega)]

theorem mainTris?_eq (W H : Nat) (hW : 1 ≤ W) (hH : 1 ≤ H) (frame : List Nat)
    (hlen : frame.length = W * H) :
    mainTris? W H frame = some (mainTris W H (fun i => frame.getD i 0)) := by
  simp [mainTris?, mainTris, meshFor, depthRange?_eq W H frame hlen,
    frontPanel?_eq W H frame hlen, bottomPanel?_eq W H hH frame hlen,
    rightPanel?_eq W H hW frame hlen, topPanel?_eq W H hH frame hlen,
    leftPanel?_eq W H hW frame hlen]

/-- C20: for `W, H ≥ 2` and a buffer of exactly `W·H` samples, every coordinate
pair with `x ≤ W-1`, `y ≤ H-1` has its index `y·W + x` inside `[0, W·H)` and is
read successfully; the total lookup succeeds for no other coordinates; and the
bounds-checked range scan and the bounds-checked mesh-builder loops, which share
the row stride `W`, never take the out-of-range branch: they return the result
of the unchecked scan and loops. -/
theorem index_safety (W H : Nat) (frame : List Nat) (hW : 2 ≤ W) (hH : 2 ≤ H)
    (hlen : frame.length = W * H) :
    (∀ x y, x ≤ W - 1 → y ≤ H - 1 →
        y * W + x < W * H ∧ readDepth? W H frame x y = some (frame.getD (y * W + x) 0))
      ∧ (∀ x y, readDepth? W H frame x y ≠ none →
        x ≤ W - 1 ∧ y ≤ H - 1 ∧ y * W + x < W * H)
      ∧ depthRange? W H frame = some (depthRange W H (fun i => frame.getD i 0))
      ∧ mainTris? W H frame = some (mainTris W H (fun i => frame.getD i 0)) := by
  refine ⟨?_, ?_, depthRange?_eq W H frame hlen,
    mainTris?_eq W H (by omega) (by omega) frame hlen⟩
  · intro x y hx hy
    exact ⟨index_lt W H x y (by omega) (by omega),
      readDepth?_eq W H frame hlen x y (by omega) (by omega)⟩
  · intro x y h
    by_cases hxy : x < W ∧ y < H
    · exact ⟨by omega, by omega, index_lt W H x y hxy.1 hxy.2⟩
    · exact absurd (by simp [readDepth?, hxy]) h

/-- Witness of `index_safety`: the two-level `2 × 2` frame. -/
theorem index_safety_witness :
    mainTris? 2 2 [100, 200, 100, 200]
      = some (mainTris 2 2 (fun i => [100, 200, 100, 200].getD i 0)) :=
  (index_safety 2 2 [100, 200, 100, 200] (by decide) (by decide) (by decide)).2.2.2

/-! ## Single-precision reading: the upper bound 250 -/

/-- Without rounding, `getDistanceAtFl` is `getDistanceAt`. -/
theorem getDistanceAtFl_id (W : Nat) (depth : Nat → Nat) (x y mn mx : Nat) :
    getDistanceAtFl id W depth x y mn mx = getDistanceAt W depth x y mn mx :=
  rfl

/-- Without rounding the single-precision reading is the exact reading. -/
theorem mainTrisFl_id (W H : Nat) (depth : Nat → Nat) :
    mainTrisFl id W H depth = mainTris W H depth :=
  rfl

theorem roundHalfEven_eq (q : ℚ) (n : Int) (h1 : (n : ℚ) - 1 / 2 < q)
    (h2 : q < (n : ℚ) + 1 / 2) : roundHalfEven q = n := by
  have hf1 : ((⌊q⌋ : Int) : ℚ) ≤ q := Int.floor_le q
  have hf2 : q < ((⌊q⌋ : Int) : ℚ) + 1 := Int.lt_floor_add_one q
  have hlo : n - 1 ≤ ⌊q⌋ := by
    have : ((n - 1 : Int) : ℚ) < ((⌊q⌋ : Int) : ℚ) + 1 := by push_cast; linarith
    have h : (n - 1 : Int) < ⌊q⌋ + 1 := by exact_mod_cast this
    omega
  have hhi : ⌊q⌋ ≤ n := by
    have : ((⌊q⌋ : Int) : ℚ) < ((n : Int) : ℚ) + 1 := by linarith
    have h : ⌊q⌋ < n + 1 := by exact_mod_cast this
    omega
  unfold roundHalfEven
  simp only
  rcases (by omega : ⌊q⌋ = n ∨ ⌊q⌋ = n - 1) with h | h
  · rw [h]
    rw [if_pos (by linarith)]
  · rw [h]
    have hq : ¬ (q - ((n - 1 : Int) : ℚ) < 1 / 2) := by push_cast; linarith
    have hq2 : 1 / 2 < q - ((n - 1 : Int) : ℚ) := by push_cast; linarith
    rw [if_neg hq, if_pos hq2]
    omega

theorem roundF32_eq (q : ℚ) (e n : Int) (hpos : 0 < q) (he : -126 ≤ e)
    (h1 : (2 : ℚ) ^ e ≤ q) (h2 : q < (2 : ℚ) ^ (e + 1))
    (hn1 : (n : ℚ) - 1 / 2 < q / (2 : ℚ) ^ (e - 23))
    (hn2 : q / (2 : ℚ) ^ (e - 23) < (n : ℚ) + 1 / 2) :
    roundF32 q = (n : ℚ) * (2 : ℚ) ^ (e - 23) := by
  have hlog : Int.log 2 |q| = e := by
    rw [abs_of_pos hpos]
    have a : e ≤ Int.log 2 q :=
      (Int.zpow_le_iff_le_log (by decide : 1 < 2) hpos).mp (by exact_mod_cast h1)
    have b : Int.log 2 q < e + 1 :=
      (Int.lt_zpow_iff_log_lt (by decide : 1 < 2) hpos).mp (by exact_mod_cast h2)
    omega
  unfold roundF32
  rw [if_neg (ne_of_gt hpos)]
  simp only [hlog, max_eq_left he]
  rw [roundHalfEven_eq _ n hn1 hn2]

theorem roundF32_13 : roundF32 13 = 13 := by
  rw [roundF32_eq 13 3 13631488 (by norm_num) (by norm_num) (by norm_num) (by norm_num)
    (by norm_num) (by norm_num)]
  norm_num

theorem roundF32_scale13 : roundF32 (250 / 13) = 5041231 / 262144 := by
  rw [roundF32_eq (250 / 13) 4 10082462 (by norm_num) (by norm_num) (by norm_num)
    (by norm_num) (by norm_num) (by norm_num)]
  norm_num

theorem roundF32_product13 : roundF32 (13 * (5041231 / 262144)) = 16384001 / 65536 := by
  rw [roundF32_eq (13 * (5041231 / 262144)) 7 16384001 (by norm_num) (by norm_num)
    (by norm_num) (by norm_num) (by norm_num) (by norm_num)]
  norm_num

/-- With span 13 the nearest sample is remapped to `250 + 2^-16` in single
precision: `250.f / 13.f` rounds up, and so does its product with 13. -/
theorem getDistanceAtFl_span13 (W : Nat) (depth : Nat → Nat) (x y : Nat)
    (hraw : depth (y * W + x) = 100) :
    getDistanceAtFl roundF32 W depth x y 100 113 = 16384001 / 65536 := by
  have h : (((113 : Nat) : Int) - ((100 : Nat) : Int) : Int) = 13 := by norm_num
  simp only [getDistanceAtFl, hraw, h, Int.cast_ofNat]
  rw [roundF32_13, roundF32_scale13, roundF32_product13]

/-- The scan of the `640 × 480` frame whose first sample is 100 and whose other
samples are 113 returns `(100, 113)`. -/
theorem depthRange_span13 :
    depthRange 640 480 (fun i => if i = 0 then 100 else 113) = (100, 113) := by
  have hb0 := depthRange_bounds 640 480 (fun i => if i = 0 then 100 else 113) 0 (by decide)
  have hb1 := depthRange_bounds 640 480 (fun i => if i = 0 then 100 else 113) 1 (by decide)
  have hmin := scan_min_attained (fun i => if i = 0 then 100 else 113)
    (scanIndices 640 480) (65535, 0)
  have hmax := scan_max_attained (fun i => if i = 0 then 100 else 113)
    (scanIndices 640 480) (65535, 0)
  rw [← depthRange_eq_foldl] at hmin hmax
  simp only [if_true, one_ne_zero, if_false] at hb0 hb1
  have h1 : (depthRange 640 480 (fun i => if i = 0 then 100 else 113)).1 = 100 := by
    rcases hmin with h | ⟨i, -, h⟩
    · simp only at h; omega
    · by_cases hi : i = 0
      · simp only [hi, if_true] at h; omega
      · simp only [hi, if_false] at h; omega
  have h2 : (depthRange 640 480 (fun i => if i = 0 then 100 else 113)).2 = 113 := by
    rcases hmax with h | ⟨i, -, h⟩
    · simp only at h; omega
    · by_cases hi : i = 0
      · simp only [hi, if_true] at h; omega
      · simp only [hi, if_false] at h; omega
  exact Prod.ext h1 h2

/-- The first corner of the first front triangle of cell `(x, y)` carries the
remapped depth of pixel `(x, y)`. -/
theorem frontPanelFl_corner (fl : ℚ → ℚ) (W H : Nat) (depth : Nat → Nat) (mn mx x y : Nat)
    (hx : x < W - 1) (hy : y < H - 1) :
    ∃ t ∈ frontPanelFl fl W H depth mn mx,
      t.v0.z = getDistanceAtFl fl W depth x y mn mx :=
  ⟨_, List.mem_flatMap.mpr ⟨y, List.mem_range.mpr hy,
    List.mem_flatMap.mpr ⟨x, List.mem_range.mpr hx, List.mem_cons_self _ _⟩⟩, rfl⟩

/-- C16 (as stated) fails on the single-precision program: in the `640 × 480`
frame whose sample at pixel `(0, 0)` is 100 and whose other samples are 113
(`minval = 100 < maxval = 113`) the emitted front vertex over pixel `(0, 0)` has
`z = 16384001/65536 = 250 + 2^-16`, above 250. -/
theorem bounding_box_fails_in_float32 :
    (depthRange 640 480 (fun i => if i = 0 then 100 else 113)).1
        < (depthRange 640 480 (fun i => if i = 0 then 100 else 113)).2
      ∧ ∃ t ∈ mainTrisFl roundF32 640 480 (fun i => if i = 0 then 100 else 113),
          ∃ v ∈ [t.v0, t.v1, t.v2], v.z = 16384001 / 65536 ∧ ¬ v.z ≤ 250 := by
  have hr := depthRange_span13
  have hz0 := getDistanceAtFl_span13 640 (fun i => if i = 0 then 100 else 113) 0 0
    (by simp)
  refine ⟨by rw [hr]; decide, ?_⟩
  obtain ⟨t, ht, hz⟩ := frontPanelFl_corner roundF32 640 480
    (fun i => if i = 0 then 100 else 113) 100 113 0 0 (by decide) (by decide)
  refine ⟨t, ?_, t.v0, by simp, ?_, ?_⟩
  · unfold mainTrisFl
    rw [hr]
    simp only [List.mem_append]
    exact Or.inl (Or.inl (Or.inl (Or.inl (Or.inl ht))))
  · rw [hz, hz0]
  · rw [hz, hz0]
    norm_num

end Kinect2Stl
